import Mathlib

/-!
Verification of the reconf plugin engine: a shallow embedding of the
manifest validator (`PluginValidator`), the manifest loader
(`PluginLoader`), and the plugin registry (`PluginRegistry`) together
with proofs about hook ordering, hook fault isolation, activation
idempotence, dependency resolution and validation rules.
-/

namespace Reconf

/-! ## JavaScript value model

Manifests are parsed JSON, so manifest fields range over the JSON-like
values the JavaScript code manipulates.  Numbers are modelled as `Int`
(no claim depends on fractional values). -/

inductive JVal where
  | null : JVal
  | str (s : String) : JVal
  | num (n : Int) : JVal
  | bool (b : Bool) : JVal
  | arr (xs : List JVal) : JVal
  | obj (fields : List (String × JVal)) : JVal
deriving Repr

/-- JavaScript truthiness (`if (v)`): `null`, `""`, `0` and `false` are falsy. -/
def jsTruthy : JVal → Bool
  | .null => false
  | .str s => s ≠ ""
  | .num n => n ≠ 0
  | .bool b => b
  | .arr _ => true
  | .obj _ => true

/-- JavaScript `typeof v` (note `typeof null` and `typeof []` are `"object"`). -/
def jsTypeof : JVal → String
  | .null => "object"
  | .str _ => "string"
  | .num _ => "number"
  | .bool _ => "boolean"
  | .arr _ => "object"
  | .obj _ => "object"

/-- Property read `v[key]` for the (string) keys the source accesses:
only object fields are retrievable, everything else yields `undefined`
(modelled as `none`). -/
def jsGet : JVal → String → Option JVal
  | .obj fields, key => fields.lookup key
  | _, _ => none

/-- `Object.keys(v)` for the values the validator can reach: object keys,
array index strings, empty otherwise. -/
def jsKeys : JVal → List String
  | .obj fields => fields.map (·.1)
  | .arr xs => (List.range xs.length).map toString
  | _ => []

/-- `hay.includes(needle)` for strings: substring containment. -/
def strContains (hay needle : String) : Bool :=
  hay.toList.tails.any (fun t => needle.toList.isPrefixOf t)

/-- `s.startsWith(t)`. -/
def strStarts (s t : String) : Bool :=
  t.toList.isPrefixOf s.toList

/-- `s.endsWith(t)` (used by the `main` file-extension pattern). -/
def strEnds (s t : String) : Bool :=
  t.toList.isSuffixOf s.toList

/-- `s.toLowerCase()`. -/
def strLower (s : String) : String :=
  String.mk (s.toList.map Char.toLower)

/-! ## Hook table entries and dispatch (`PluginRegistry`)

A hook handler is plugin-authored code invoked with the accumulated data
(and a plugin API object it may ignore); for dispatch purposes its
observable behaviour on one invocation is: throw, return `undefined`, or
return a replacement value.  `HookEntry` is the record pushed into
`this.hooks.get(hookName)`:
`{ plugin: plugin.name, handler, priority: handler.priority || 0 }`. -/

inductive HookResult (α : Type) where
  | throws : HookResult α
  | undef : HookResult α
  | value (v : α) : HookResult α

structure HookEntry (α : Type) where
  plugin : String
  handler : α → HookResult α
  priority : Int

/-- One step of the stable descending sort used for a hook's handler
list: insert `e` in front of the first element of strictly smaller
priority (so `e` lands after every earlier-registered entry of equal or
larger priority). -/
def insertDesc {α : Type} (e : HookEntry α) : List (HookEntry α) → List (HookEntry α)
  | [] => [e]
  | x :: xs => if x.priority ≤ e.priority then e :: x :: xs else x :: insertDesc e xs

/-- The stable sort `handlers.sort((a, b) => b.priority - a.priority)`:
`Array.prototype.sort` is required to be stable, so any stable
descending-by-priority sort is a faithful model; we use insertion sort. -/
def sortDesc {α : Type} : List (HookEntry α) → List (HookEntry α)
  | [] => []
  | x :: xs => insertDesc x (sortDesc xs)

/-- `registerPluginHooks` body for one entry: push the new handler record
and re-sort that hook's list by descending priority
(`PluginRegistry.registerPluginHooks`, src/lib/plugins/PluginRegistry.js:215-222). -/
def pushAndSort {α : Type} (l : List (HookEntry α)) (e : HookEntry α) : List (HookEntry α) :=
  sortDesc (l ++ [e])

/-- The plugin API's `hooks.register`: push the record with no re-sort
(`PluginRegistry.createPluginAPI`, src/lib/plugins/PluginRegistry.js:272-281). -/
def pushOnly {α : Type} (l : List (HookEntry α)) (e : HookEntry α) : List (HookEntry α) :=
  l ++ [e]

/-- `executeHooks` over one hook's handler list
(src/lib/plugins/PluginRegistry.js:243-259), instrumented with the list
of owning plugins whose handler was invoked: each handler is invoked with
the accumulated result; a thrown exception is caught (result unchanged);
a `undefined` return leaves the result unchanged; any other return value
replaces the result. -/
def executeHooksTrace {α : Type} (handlers : List (HookEntry α)) (data : α) :
    α × List String :=
  match handlers with
  | [] => (data, [])
  | e :: rest =>
    let next :=
      match e.handler data with
      | .throws => data
      | .undef => data
      | .value v => v
    let r := executeHooksTrace rest next
    (r.1, e.plugin :: r.2)

/-- The value `executeHooks` returns. -/
def executeHooksRun {α : Type} (handlers : List (HookEntry α)) (data : α) : α :=
  (executeHooksTrace handlers data).1

/-- Claim-side description (from the spec's words, for comparison with
`executeHooksRun`): the values successively adopted as the accumulated
result — each handler that completes and returns a non-absent value
contributes, computed on the then-current data. -/
def producedValues {α : Type} (handlers : List (HookEntry α)) (data : α) : List α :=
  match handlers with
  | [] => []
  | e :: rest =>
    match e.handler data with
    | .value v => v :: producedValues rest v
    | _ => producedValues rest data

/-- Descending-by-priority order of a handler list, as a Bool predicate. -/
def sortedDescB {α : Type} : List (HookEntry α) → Bool
  | [] => true
  | [_] => true
  | a :: b :: t => decide (b.priority ≤ a.priority) && sortedDescB (b :: t)

/-! ### Lemmas about hook registration and dispatch -/

theorem executeHooksTrace_invoked {α : Type} (handlers : List (HookEntry α)) (data : α) :
    (executeHooksTrace handlers data).2 = handlers.map (·.plugin) := by
  induction handlers generalizing data with
  | nil => rfl
  | cons e rest ih => simp [executeHooksTrace, ih]

theorem executeHooksRun_eq_lastProduced {α : Type} (handlers : List (HookEntry α)) (data : α) :
    executeHooksRun handlers data = (producedValues handlers data).getLastD data := by
  induction handlers generalizing data with
  | nil => rfl
  | cons e rest ih =>
    cases h : e.handler data with
    | throws =>
      simpa only [executeHooksRun, executeHooksTrace, h, producedValues] using ih data
    | undef =>
      simpa only [executeHooksRun, executeHooksTrace, h, producedValues] using ih data
    | value v =>
      simpa only [executeHooksRun, executeHooksTrace, h, producedValues,
        List.getLastD_cons] using ih v

theorem sortedDescB_cons2 {α : Type} (a b : HookEntry α) (t : List (HookEntry α)) :
    sortedDescB (a :: b :: t) =
      (decide (b.priority ≤ a.priority) && sortedDescB (b :: t)) := rfl

theorem sortedDescB_tail {α : Type} {x : HookEntry α} {xs : List (HookEntry α)}
    (h : sortedDescB (x :: xs) = true) : sortedDescB xs = true := by
  cases xs with
  | nil => rfl
  | cons y ys =>
    rw [sortedDescB_cons2, Bool.and_eq_true] at h
    exact h.2

theorem sortedDescB_head {α : Type} {x y : HookEntry α} {t : List (HookEntry α)}
    (h : sortedDescB (x :: y :: t) = true) : y.priority ≤ x.priority := by
  rw [sortedDescB_cons2, Bool.and_eq_true, decide_eq_true_eq] at h
  exact h.1

theorem sortedDescB_insertDesc {α : Type} (e : HookEntry α) (l : List (HookEntry α))
    (h : sortedDescB l = true) : sortedDescB (insertDesc e l) = true := by
  induction l with
  | nil => rfl
  | cons x xs ih =>
    by_cases hx : x.priority ≤ e.priority
    · rw [show insertDesc e (x :: xs) = e :: x :: xs by simp [insertDesc, if_pos hx]]
      rw [sortedDescB_cons2, Bool.and_eq_true, decide_eq_true_eq]
      exact ⟨hx, h⟩
    · have hle : e.priority ≤ x.priority := le_of_lt (lt_of_not_le hx)
      cases xs with
      | nil =>
        rw [show insertDesc e [x] = [x, e] by simp [insertDesc, if_neg hx]]
        rw [sortedDescB_cons2, Bool.and_eq_true, decide_eq_true_eq]
        exact ⟨hle, rfl⟩
      | cons y ys =>
        have htail := ih (sortedDescB_tail h)
        by_cases hy : y.priority ≤ e.priority
        · rw [show insertDesc e (x :: y :: ys) = x :: e :: y :: ys by
            simp [insertDesc, if_neg hx, if_pos hy]]
          rw [show insertDesc e (y :: ys) = e :: y :: ys by
            simp [insertDesc, if_pos hy]] at htail
          rw [sortedDescB_cons2, Bool.and_eq_true, decide_eq_true_eq]
          exact ⟨hle, htail⟩
        · rw [show insertDesc e (x :: y :: ys) = x :: y :: insertDesc e ys by
            simp [insertDesc, if_neg hx, if_neg hy]]
          rw [show insertDesc e (y :: ys) = y :: insertDesc e ys by
            simp [insertDesc, if_neg hy]] at htail
          rw [sortedDescB_cons2, Bool.and_eq_true, decide_eq_true_eq]
          exact ⟨sortedDescB_head h, htail⟩

theorem sortedDescB_sortDesc {α : Type} (l : List (HookEntry α)) :
    sortedDescB (sortDesc l) = true := by
  induction l with
  | nil => rfl
  | cons x xs ih => exact sortedDescB_insertDesc x _ ih

/-- Stability of the insert step on priority classes: in a
descending-sorted list, `insertDesc` places `e` before every element of
equal priority (`e` being the earlier-registered one in `sortDesc`'s
fold), so the priority-`p` class of the result is the old class with `e`
put in front when it belongs to it. -/
theorem filter_insertDesc {α : Type} (e : HookEntry α) (l : List (HookEntry α)) (p : Int)
    (h : sortedDescB l = true) :
    (insertDesc e l).filter (fun x => decide (x.priority = p)) =
      (if e.priority = p then [e] else []) ++ l.filter (fun x => decide (x.priority = p)) := by
  induction l with
  | nil => by_cases he : e.priority = p <;> simp [insertDesc, List.filter, he]
  | cons x xs ih =>
    by_cases hx : x.priority ≤ e.priority
    · rw [show insertDesc e (x :: xs) = e :: x :: xs by simp [insertDesc, if_pos hx]]
      by_cases he : e.priority = p <;> simp [List.filter_cons, he]
    · have hlt : e.priority < x.priority := lt_of_not_le hx
      have htail := ih (sortedDescB_tail h)
      rw [show insertDesc e (x :: xs) = x :: insertDesc e xs by
        simp [insertDesc, if_neg hx]]
      by_cases hxp : x.priority = p
      · have hep : ¬ e.priority = p := by omega
        simp [List.filter_cons, hxp, htail, hep]
      · simp [List.filter_cons, hxp, htail]

/-- The full stable sort preserves each priority class pointwise. -/
theorem filter_sortDesc {α : Type} (l : List (HookEntry α)) (p : Int) :
    (sortDesc l).filter (fun x => decide (x.priority = p)) =
      l.filter (fun x => decide (x.priority = p)) := by
  induction l with
  | nil => rfl
  | cons x xs ih =>
    rw [show sortDesc (x :: xs) = insertDesc x (sortDesc xs) from rfl]
    rw [filter_insertDesc x (sortDesc xs) p (sortedDescB_sortDesc xs), ih]
    by_cases hx : x.priority = p <;> simp [List.filter_cons, hx]

theorem sortedDescB_foldl_pushAndSort {α : Type} (regs : List (HookEntry α))
    (acc : List (HookEntry α)) (hacc : sortedDescB acc = true) :
    sortedDescB (regs.foldl pushAndSort acc) = true := by
  induction regs generalizing acc with
  | nil => exact hacc
  | cons e rest ih => exact ih _ (sortedDescB_sortDesc _)

theorem filter_foldl_pushAndSort {α : Type} (regs : List (HookEntry α))
    (acc : List (HookEntry α)) (p : Int) :
    (regs.foldl pushAndSort acc).filter (fun x => decide (x.priority = p)) =
      acc.filter (fun x => decide (x.priority = p)) ++
        regs.filter (fun x => decide (x.priority = p)) := by
  induction regs generalizing acc with
  | nil => simp
  | cons e rest ih =>
    rw [List.foldl_cons, ih]
    rw [show pushAndSort acc e = sortDesc (acc ++ [e]) from rfl, filter_sortDesc]
    by_cases he : e.priority = p <;> simp [List.filter_append, List.filter_cons, he]

/-- A concrete handler record used in closed instances: the handler
returns `undefined` (so dispatch order alone is observed). -/
def entP (name : String) (p : Int) : HookEntry Int :=
  ⟨name, fun _ => HookResult.undef, p⟩

/-- C1 counterexample: two handlers registered for the same hook through
the plugin context's `hooks.register` operation with priorities 1 then 5
are invoked by `executeHooks` in registration order ("low" before
"high"), not in descending priority order — `register` appends without
re-sorting, so the claim's "regardless of ... the plugin context's
register operation" is false. -/
theorem C1_counterexample :
    (executeHooksTrace (pushOnly (pushOnly [] (entP "low" 1)) (entP "high" 5)) 0).2 =
        ["low", "high"] ∧
      sortedDescB (pushOnly (pushOnly [] (entP "low" 1)) (entP "high" 5)) = false :=
  ⟨rfl, rfl⟩

/-- C1 (amended): for a hook whose handlers were all registered through
`registerPluginHooks` (the instance's `hooks` accessor at activation),
one `executeHooks` call invokes them in exactly the hook table's order,
which is descending by priority with ties kept in registration order
(each priority class of the table equals that class of the registration
sequence); in particular priorities [1, 5, 3] run as 5, 3, 1.  Handlers
added through the plugin context's `register` operation are appended
without re-sorting, so the ordering guarantee does not extend to them. -/
theorem C1_hook_order :
    (∀ (regs : List (HookEntry Int)) (d : Int),
      (executeHooksTrace (regs.foldl pushAndSort []) d).2 =
          (regs.foldl pushAndSort []).map (·.plugin) ∧
        sortedDescB (regs.foldl pushAndSort []) = true ∧
        ∀ p : Int,
          (regs.foldl pushAndSort []).filter (fun x => decide (x.priority = p)) =
            regs.filter (fun x => decide (x.priority = p))) ∧
    (executeHooksTrace
        ([entP "p1" 1, entP "p5" 5, entP "p3" 3].foldl pushAndSort []) 0).2 =
      ["p5", "p3", "p1"] := by
  refine ⟨fun regs d => ⟨executeHooksTrace_invoked _ _,
    sortedDescB_foldl_pushAndSort _ _ rfl, fun p => ?_⟩, rfl⟩
  simpa using filter_foldl_pushAndSort regs [] p

/-- C4: a throwing handler is caught (the accumulated value is kept), every
remaining handler of the same `executeHooks` call is still invoked, and
the call returns the value of the last handler that completed and
returned a non-`undefined` value — or the original input data if none did. -/
theorem C4_fault_isolation {α : Type} (handlers : List (HookEntry α)) (data : α) :
    executeHooksRun handlers data = (producedValues handlers data).getLastD data ∧
      (executeHooksTrace handlers data).2 = handlers.map (·.plugin) :=
  ⟨executeHooksRun_eq_lastProduced handlers data, executeHooksTrace_invoked handlers data⟩

/-! ## Schema validator (`PluginValidator`, src/unnamed/part_002)

The validator is a pure function from a parsed manifest value to a
`ValidationResult`.  The three regular expressions of the rule set are
modelled by dedicated matchers. -/

/-- `^[a-z0-9-_]+$` — one or more of lowercase letter, digit, hyphen, underscore. -/
def namePatTest (s : String) : Bool :=
  s.length > 0 &&
    s.toList.all (fun c => (c.isLower && c.isAlpha) || c.isDigit || c = '-' || c = '_')

/-- Consume one or more characters satisfying `p`; `none` if the first fails. -/
def chompMany1 (p : Char → Bool) (l : List Char) : Option (List Char) :=
  let taken := l.takeWhile p
  if taken.isEmpty then none else some (l.dropWhile p)

/-- Character class `[a-zA-Z0-9-]` of the semver pre-release/build parts. -/
def semverTailChar (c : Char) : Bool :=
  (c.isLower && c.isAlpha) || (c.isUpper && c.isAlpha) || c.isDigit || c = '-'

/-- `^\d+\.\d+\.\d+` — the three numeric components, returning the rest. -/
def chompSemverCore (l : List Char) : Option (List Char) := do
  let r1 ← chompMany1 Char.isDigit l
  match r1 with
  | '.' :: r1t =>
    let r2 ← chompMany1 Char.isDigit r1t
    match r2 with
    | '.' :: r2t => chompMany1 Char.isDigit r2t
    | _ => none
  | _ => none

/-- `^\d+\.\d+\.\d+(-[a-zA-Z0-9-]+)?(\+[a-zA-Z0-9-]+)?$` (the schema's
`version` pattern and `PluginAPI.Utils.isValidSemver`; both character
classes exclude `+` and `.`, so greedy matching is deterministic). -/
def versionPatTest (s : String) : Bool :=
  match chompSemverCore s.toList with
  | none => false
  | some rest =>
    let afterPre :=
      match rest with
      | '-' :: t => (chompMany1 semverTailChar t).getD ['-']
      | _ => rest
    match afterPre with
    | [] => true
    | '+' :: t =>
      match chompMany1 semverTailChar t with
      | some [] => true
      | _ => false
    | _ => false

/-- `\.(js|mjs)$` — unanchored at the start: the string ends in `.js` or `.mjs`. -/
def mainPatTest (s : String) : Bool :=
  strEnds s ".js" || strEnds s ".mjs"

/-- `^\d+\.\d+\.\d+` unanchored at the end (the loader's basic version check). -/
def versionCoreTest (s : String) : Bool :=
  (chompSemverCore s.toList).isSome

inductive PatId where
  | namePat : PatId
  | versionPat : PatId
  | mainPat : PatId
deriving DecidableEq

def patTest : PatId → String → Bool
  | .namePat, s => namePatTest s
  | .versionPat, s => versionPatTest s
  | .mainPat, s => mainPatTest s

/-- One entry of `getValidationRules()` (the `description` strings are kept
because pattern-mismatch error messages interpolate them). -/
structure VRule where
  required : Bool
  rtype : Option String := none
  pattern : Option PatId := none
  enum : Option (List String) := none
  minLength : Option Nat := none
  maxLength : Option Nat := none
  desc : Option String := none
deriving DecidableEq

def nameRule : VRule :=
  { required := true, rtype := some "string", pattern := some .namePat,
    minLength := some 2, maxLength := some 50,
    desc := some "Plugin name must be lowercase alphanumeric with hyphens/underscores" }

def versionRule : VRule :=
  { required := true, rtype := some "string", pattern := some .versionPat,
    desc := some "Version must follow semantic versioning (x.y.z)" }

def typeRule : VRule :=
  { required := true, rtype := some "string",
    enum := some ["theme", "config-parser", "ui-component", "validator", "exporter"],
    desc := some "Plugin type must be one of the supported types" }

def mainRule : VRule :=
  { required := true, rtype := some "string", pattern := some .mainPat,
    desc := some "Main file must be a JavaScript module (.js or .mjs)" }

def descriptionRule : VRule :=
  { required := false, rtype := some "string", maxLength := some 200,
    desc := some "Plugin description should be concise" }

def authorRule : VRule :=
  { required := false, rtype := some "string", maxLength := some 100,
    desc := some "Author information" }

def dependenciesRule : VRule :=
  { required := false, rtype := some "object", desc := some "Plugin dependencies" }

def configRule : VRule :=
  { required := false, rtype := some "object", desc := some "Plugin configuration options" }

def permissionsRule : VRule :=
  { required := false, rtype := some "object", desc := some "Required system permissions" }

/-- `getValidationRules()`, in `Object.entries` order.  (No rule defines
`items`, so `validateAgainstSchema`'s array-items branch is dead code and
not modelled.) -/
def validationRules : List (String × VRule) :=
  [("name", nameRule), ("version", versionRule), ("type", typeRule), ("main", mainRule),
   ("description", descriptionRule), ("author", authorRule),
   ("dependencies", dependenciesRule), ("config", configRule),
   ("permissions", permissionsRule)]

/-- `rules.enum.includes(value)` — only string values can match the string list. -/
def enumHas (es : List String) : JVal → Bool
  | .str s => es.contains s
  | _ => false

/-- The per-field checks of `validateAgainstSchema` after the two presence
gates, in source order with the `continue`-on-error structure. -/
def checkFieldBody (field : String) (r : VRule) (v : JVal) : List String :=
  if (r.rtype.isSome && decide (jsTypeof v ≠ r.rtype.getD "")) = true then
    ["Invalid type for " ++ field ++ ": expected " ++ r.rtype.getD "" ++ ", got " ++ jsTypeof v]
  else if (r.enum.isSome && !enumHas (r.enum.getD []) v) = true then
    ["Invalid value for " ++ field ++ ": must be one of [" ++
      ", ".intercalate (r.enum.getD []) ++ "]"]
  else
    match v with
    | .str s =>
      if (r.pattern.isSome && !patTest (r.pattern.getD .namePat) s) = true then
        ["Invalid format for " ++ field ++ ": " ++ r.desc.getD "pattern mismatch"]
      else
        (if (r.minLength.isSome && decide (s.length < r.minLength.getD 0)) = true then
          [field ++ " is too short: minimum " ++ toString (r.minLength.getD 0) ++ " characters"]
        else []) ++
        (if (r.maxLength.isSome && decide (s.length > r.maxLength.getD 0)) = true then
          [field ++ " is too long: maximum " ++ toString (r.maxLength.getD 0) ++ " characters"]
        else [])
    | _ => []

/-- Errors for one schema field: required-presence gate
(`undefined`/`null`/`''`), absent-optional gate, then the body checks. -/
def checkFieldErrors (plugin : JVal) (field : String) (r : VRule) : List String :=
  match jsGet plugin field with
  | none => if r.required then ["Missing required field: " ++ field] else []
  | some .null => if r.required then ["Missing required field: " ++ field] else []
  | some (.str "") =>
    if r.required then ["Missing required field: " ++ field]
    else checkFieldBody field r (.str "")
  | some v => checkFieldBody field r v

/-- `validateAgainstSchema(plugin, this.validationRules)`: field errors in
rule order, then unknown-field warnings in key order. -/
def validateAgainstSchema (plugin : JVal) : List String × List String :=
  (validationRules.flatMap (fun fr => checkFieldErrors plugin fr.1 fr.2),
   ((jsKeys plugin).filter (fun k => (validationRules.lookup k).isNone)).map
     (fun k => "Unknown field: " ++ k))

def jsTruthyOpt : Option JVal → Bool
  | none => false
  | some v => jsTruthy v

/-- `validatePluginType`: advisory, type-specific `config` warnings. -/
def validatePluginType (plugin : JVal) : List String × List String :=
  let cfg := jsGet plugin "config"
  let cfgWarn : String → String → List String := fun key msg =>
    if jsTruthyOpt cfg && !jsTruthyOpt (jsGet (cfg.getD .null) key) then [msg] else []
  match jsGet plugin "type" with
  | some (.str "theme") =>
    ([], cfgWarn "primary_color" "Theme plugin should define primary_color in config" ++
         cfgWarn "secondary_color" "Theme plugin should define secondary_color in config")
  | some (.str "config-parser") =>
    ([], cfgWarn "supported_extensions"
      "Config parser should specify supported_extensions in config")
  | some (.str "ui-component") =>
    ([], cfgWarn "component_type" "UI component should specify component_type in config")
  | some (.str "validator") =>
    ([], cfgWarn "validation_rules" "Validator plugin should define validation_rules in config")
  | some (.str "exporter") =>
    ([], cfgWarn "export_formats" "Exporter plugin should specify export_formats in config")
  | _ => ([], [])

mutual

/-- Template-literal / `String()` rendering of a value, used where the
source interpolates non-string values into messages or coerces the
argument of `String.prototype.includes`. -/
def jsTemplateStr : JVal → String
  | .null => "null"
  | .str s => s
  | .num n => toString n
  | .bool b => cond b "true" "false"
  | .arr xs => ",".intercalate (jsTemplateStrList xs)
  | .obj _ => "[object Object]"

def jsTemplateStrList : List JVal → List String
  | [] => []
  | v :: vs => jsTemplateStr v :: jsTemplateStrList vs

end

def allowedPermissions : List String :=
  ["fs-read", "fs-write", "network", "ui-modify", "config-modify", "system-info"]

def dangerousPermissions : List String :=
  ["fs-write", "network", "system-info"]

/-- `Array.prototype.includes` / `Map.has` key comparison (SameValueZero)
against a candidate value: structural on primitives; an object or array
operand never equals a stored one here because every compared node is a
distinct product of `JSON.parse`. -/
def sameValueZero : JVal → JVal → Bool
  | .null, .null => true
  | .str a, .str b => a = b
  | .num a, .num b => a = b
  | .bool a, .bool b => a = b
  | _, _ => false

/-- The `main`-path section of `validateSecurity`: a truthy non-string
`main` makes `plugin.main.includes(..)` (or, for an array, the later
`plugin.main.startsWith(..)`) throw a `TypeError`, abandoning the local
error/warning lists. -/
def mainSecChecks (mv : Option JVal) : Except String (List String × List String) :=
  if !jsTruthyOpt mv then .ok ([], [])
  else
    match mv with
    | some (.str s) =>
      .ok ((if strContains s ".." then
              ["Main file path cannot contain parent directory references (..)"] else []) ++
           (if strStarts s "/" then ["Main file path cannot be absolute"] else []),
           if strContains s "node_modules" then
             ["Main file should not reference node_modules directly"] else [])
    | some (.arr _) => .error "plugin.main.startsWith is not a function"
    | _ => .error "plugin.main.includes is not a function"

/-- The permissions section of `validateSecurity`: a truthy non-array
`permissions` pushes an error and then throws at
`plugin.permissions.filter(..)`, losing the pushed error. -/
def permSecChecks (pv : Option JVal) : Except String (List String × List String) :=
  if !jsTruthyOpt pv then .ok ([], [])
  else
    match pv with
    | some (.arr xs) =>
      let errs := xs.flatMap fun p =>
        match p with
        | .str t => if allowedPermissions.contains t then [] else ["Unknown permission: " ++ t]
        | other => ["Unknown permission: " ++ jsTemplateStr other]
      let requested := xs.filter fun p =>
        match p with
        | .str t => dangerousPermissions.contains t
        | _ => false
      .ok (errs,
        if requested.isEmpty then []
        else ["Plugin requests potentially dangerous permissions: " ++
          ", ".intercalate (requested.map fun v => jsTemplateStr v)])
    | _ => .error "plugin.permissions.filter is not a function"

/-- `validateSecurity`: main-path checks then permission checks; a thrown
`TypeError` abandons both local lists. -/
def validateSecurity (plugin : JVal) : Except String (List String × List String) := do
  let m ← mainSecChecks (jsGet plugin "main")
  let p ← permSecChecks (jsGet plugin "permissions")
  .ok (m.1 ++ p.1, m.2 ++ p.2)

/-- `isValidPluginName`: string of 2–50 characters matching `^[a-z0-9-_]+$`. -/
def isValidPluginName (s : String) : Bool :=
  namePatTest s && decide (2 ≤ s.length) && decide (s.length ≤ 50)

/-- `PluginAPI.Utils.isValidSemver` (src/unnamed/part_003): the same full
semver regular expression as the schema's `version` rule. -/
def isValidSemver (s : String) : Bool :=
  versionPatTest s

/-- `plugin.dependencies.includes && plugin.dependencies.includes(plugin.name)`:
arrays have `includes` (SameValueZero element search), strings have
`includes` (substring search with the argument coerced to a string;
an absent name coerces to "undefined"); objects, numbers and booleans
have no `includes`, so the`&&` short-circuits to no check at all. -/
def depsSelfCheck (deps : JVal) (nameVal : Option JVal) : Bool :=
  match deps with
  | .arr ds =>
    match nameVal with
    | none => false
    | some nv => ds.any fun d => sameValueZero nv d
  | .str s => strContains s (jsTemplateStr (nameVal.getD (.str "undefined")))
  | _ => false

/-- `validateDependencies`: per-entry name (and version) syntax checks for
the array and object collection forms, a form error otherwise, then the
self-dependency check via `.includes`. -/
def validateDependencies (plugin : JVal) : List String × List String :=
  match jsGet plugin "dependencies" with
  | some depv =>
    if !jsTruthy depv then ([], [])
    else
      let formErrs :=
        match depv with
        | .arr ds =>
          ds.flatMap fun d =>
            match d with
            | .str s =>
              if isValidPluginName s then [] else ["Invalid dependency name: " ++ s]
            | _ => ["Dependencies array must contain strings"]
        | .obj fs =>
          fs.flatMap fun kv =>
            (if isValidPluginName kv.1 then [] else ["Invalid dependency name: " ++ kv.1]) ++
            (match kv.2 with
             | .str vs =>
               if isValidSemver vs then []
               else ["Invalid version for dependency " ++ kv.1 ++ ": " ++ vs]
             | _ => [])
        | _ => ["Dependencies must be an array or object"]
      (formErrs ++
        (if depsSelfCheck depv (jsGet plugin "name") then ["Plugin cannot depend on itself"]
         else []), [])
  | none => ([], [])

mutual

/-- `JSON.stringify` of a manifest value (string escaping is not modelled;
only the serialized length threshold consumes this). -/
def jsonStringify : JVal → String
  | .null => "null"
  | .str s => "\"" ++ s ++ "\""
  | .num n => toString n
  | .bool b => cond b "true" "false"
  | .arr xs => "[" ++ ",".intercalate (jsonStringifyList xs) ++ "]"
  | .obj fs => "\x7b" ++ ",".intercalate (jsonStringifyFields fs) ++ "\x7d"

def jsonStringifyList : List JVal → List String
  | [] => []
  | v :: vs => jsonStringify v :: jsonStringifyList vs

def jsonStringifyFields : List (String × JVal) → List String
  | [] => []
  | kv :: kvs => ("\"" ++ kv.1 ++ "\":" ++ jsonStringify kv.2) :: jsonStringifyFields kvs

end

def sensitiveKeys : List String :=
  ["password", "secret", "key", "token", "api_key"]

/-- `validateConfiguration`: type gate on `config`, then sensitive-key
warnings and the serialized-size warning. -/
def validateConfiguration (plugin : JVal) : List String × List String :=
  match jsGet plugin "config" with
  | some cfg =>
    if jsTruthy cfg && decide (jsTypeof cfg ≠ "object") then
      (["Plugin config must be an object"], [])
    else if jsTruthy cfg then
      ([],
       ((jsKeys cfg).filter fun k =>
          sensitiveKeys.any fun sk => strContains (strLower k) sk).map
         (fun k => "Configuration contains potentially sensitive key: " ++ k) ++
       (if decide (10000 < (jsonStringify cfg).length) then
          ["Plugin configuration is very large, consider external config files"] else []))
    else ([], [])
  | none => ([], [])

structure VResult where
  valid : Bool
  errors : List String
  warnings : List String
deriving DecidableEq

/-- `validatePlugin`: the basic-structure gate, then schema, type-specific,
security, dependency and configuration checks in order; a `TypeError`
thrown inside `validateSecurity` is caught, recorded as a
`Validation error:` entry, and skips the dependency and configuration
checks; `valid` is `errors.length === 0`. -/
def validatePlugin (v : JVal) : VResult :=
  if !jsTruthy v || decide (jsTypeof v ≠ "object") then
    { valid := false, errors := ["Plugin configuration must be a valid object"],
      warnings := [] }
  else
    let sc := validateAgainstSchema v
    let ty := validatePluginType v
    match validateSecurity v with
    | .ok se =>
      let de := validateDependencies v
      let ce := validateConfiguration v
      let errs := sc.1 ++ ty.1 ++ se.1 ++ de.1 ++ ce.1
      { valid := errs.isEmpty, errors := errs,
        warnings := sc.2 ++ ty.2 ++ se.2 ++ de.2 ++ ce.2 }
    | .error msg =>
      let errs := sc.1 ++ ty.1 ++ ["Validation error: " ++ msg]
      { valid := errs.isEmpty, errors := errs, warnings := sc.2 ++ ty.2 }

/-! ### Lemmas about `validatePlugin` -/

/-- Shape gate for `permissions` under which `validateSecurity` cannot
throw in its permissions section: absent, falsy, or an array. -/
def permArrOrFalsy (v : JVal) : Bool :=
  match jsGet v "permissions" with
  | none => true
  | some (.arr _) => true
  | some p => !jsTruthy p

/-- Shape gate for `main` under which `validateSecurity` cannot throw in
its main-path section: absent, falsy, or a string. -/
def mainStrOrFalsy (v : JVal) : Bool :=
  match jsGet v "main" with
  | none => true
  | some (.str _) => true
  | some p => !jsTruthy p

theorem permSecChecks_ok {v : JVal} (h : permArrOrFalsy v = true) :
    ∃ C D, permSecChecks (jsGet v "permissions") = .ok (C, D) := by
  unfold permArrOrFalsy at h
  cases hp : jsGet v "permissions" with
  | none => exact ⟨[], [], rfl⟩
  | some p =>
    rw [hp] at h
    cases p with
    | arr xs => exact ⟨_, _, rfl⟩
    | null => exact ⟨[], [], rfl⟩
    | str s =>
      have hs : s = "" := by simpa [jsTruthy] using h
      subst hs; exact ⟨[], [], rfl⟩
    | num n =>
      have hn : n = 0 := by simpa [jsTruthy] using h
      subst hn; exact ⟨[], [], rfl⟩
    | bool b =>
      have hb : b = false := by simpa [jsTruthy] using h
      subst hb; exact ⟨[], [], rfl⟩
    | obj fs => simp [jsTruthy] at h

theorem mainSecChecks_ok {v : JVal} (h : mainStrOrFalsy v = true) :
    ∃ A B, mainSecChecks (jsGet v "main") = .ok (A, B) := by
  unfold mainStrOrFalsy at h
  cases hm : jsGet v "main" with
  | none => exact ⟨[], [], rfl⟩
  | some p =>
    rw [hm] at h
    cases p with
    | str s =>
      by_cases hs : s = ""
      · subst hs; exact ⟨[], [], rfl⟩
      · have ht : jsTruthyOpt (some (JVal.str s)) = true := by
          simp [jsTruthyOpt, jsTruthy, hs]
        exact ⟨(if strContains s ".." then
            ["Main file path cannot contain parent directory references (..)"] else []) ++
            (if strStarts s "/" then ["Main file path cannot be absolute"] else []),
          (if strContains s "node_modules" then
            ["Main file should not reference node_modules directly"] else []),
          by simp only [mainSecChecks, ht, Bool.not_true, Bool.false_eq_true, if_false]⟩
    | null => exact ⟨[], [], rfl⟩
    | num n =>
      have hn : n = 0 := by simpa [jsTruthy] using h
      subst hn; exact ⟨[], [], rfl⟩
    | bool b =>
      have hb : b = false := by simpa [jsTruthy] using h
      subst hb; exact ⟨[], [], rfl⟩
    | arr xs => simp [jsTruthy] at h
    | obj fs => simp [jsTruthy] at h

/-- Unfolding of `validatePlugin` on an object manifest when
`validateSecurity` completes without throwing. -/
theorem validatePlugin_obj_ok (fields : List (String × JVal))
    (se : List String × List String)
    (hs : validateSecurity (.obj fields) = .ok se) :
    validatePlugin (.obj fields) =
      { valid := ((validateAgainstSchema (.obj fields)).1 ++
            (validatePluginType (.obj fields)).1 ++ se.1 ++
            (validateDependencies (.obj fields)).1 ++
            (validateConfiguration (.obj fields)).1).isEmpty,
        errors := (validateAgainstSchema (.obj fields)).1 ++
          (validatePluginType (.obj fields)).1 ++ se.1 ++
          (validateDependencies (.obj fields)).1 ++
          (validateConfiguration (.obj fields)).1,
        warnings := (validateAgainstSchema (.obj fields)).2 ++
          (validatePluginType (.obj fields)).2 ++ se.2 ++
          (validateDependencies (.obj fields)).2 ++
          (validateConfiguration (.obj fields)).2 } := by
  simp [validatePlugin, hs, jsTruthy, jsTypeof]

/-- Unfolding of `validatePlugin` on an object manifest when
`validateSecurity` throws. -/
theorem validatePlugin_obj_error (fields : List (String × JVal)) (msg : String)
    (hs : validateSecurity (.obj fields) = .error msg) :
    validatePlugin (.obj fields) =
      { valid := ((validateAgainstSchema (.obj fields)).1 ++
            (validatePluginType (.obj fields)).1 ++
            ["Validation error: " ++ msg]).isEmpty,
        errors := (validateAgainstSchema (.obj fields)).1 ++
          (validatePluginType (.obj fields)).1 ++ ["Validation error: " ++ msg],
        warnings := (validateAgainstSchema (.obj fields)).2 ++
          (validatePluginType (.obj fields)).2 } := by
  simp [validatePlugin, hs, jsTruthy, jsTypeof]

theorem valid_false_of_mem_errors {v : JVal} {e : String}
    (hmem : e ∈ (validatePlugin v).errors)
    (hv : (validatePlugin v).valid = (validatePlugin v).errors.isEmpty) :
    (validatePlugin v).valid = false := by
  rw [hv]
  cases herr : (validatePlugin v).errors with
  | nil => exact absurd (herr ▸ hmem) (List.not_mem_nil e)
  | cons a t => rfl

theorem validatePlugin_obj_valid_eq (fields : List (String × JVal)) :
    (validatePlugin (.obj fields)).valid = (validatePlugin (.obj fields)).errors.isEmpty := by
  cases hs : validateSecurity (.obj fields) with
  | ok se => rw [validatePlugin_obj_ok fields se hs]
  | error msg => rw [validatePlugin_obj_error fields msg hs]

/-- A schema error always survives into the final error list (it is
pushed before `validateSecurity` can throw), making the result invalid. -/
theorem mem_errors_of_mem_schema {fields : List (String × JVal)} {e : String}
    (h : e ∈ (validateAgainstSchema (.obj fields)).1) :
    e ∈ (validatePlugin (.obj fields)).errors ∧
      (validatePlugin (.obj fields)).valid = false := by
  have hmem : e ∈ (validatePlugin (.obj fields)).errors := by
    cases hs : validateSecurity (.obj fields) with
    | ok se => rw [validatePlugin_obj_ok fields se hs]; simp [List.mem_append]; tauto
    | error msg => rw [validatePlugin_obj_error fields msg hs]; simp [List.mem_append]; tauto
  exact ⟨hmem, valid_false_of_mem_errors hmem (validatePlugin_obj_valid_eq fields)⟩

theorem validateSecurity_eq {v : JVal} {A B C D : List String}
    (hm : mainSecChecks (jsGet v "main") = .ok (A, B))
    (hp : permSecChecks (jsGet v "permissions") = .ok (C, D)) :
    validateSecurity v = .ok (A ++ C, B ++ D) := by
  rw [validateSecurity, hm, hp]; rfl

theorem mem_errors_obj_ok {fields : List (String × JVal)}
    {se : List String × List String} {e : String}
    (hs : validateSecurity (.obj fields) = .ok se)
    (h : e ∈ se.1 ∨ e ∈ (validateDependencies (.obj fields)).1) :
    e ∈ (validatePlugin (.obj fields)).errors := by
  rw [validatePlugin_obj_ok fields se hs]
  simp [List.mem_append]
  tauto

theorem mem_warnings_obj_ok {fields : List (String × JVal)}
    {se : List String × List String} {w : String}
    (hs : validateSecurity (.obj fields) = .ok se)
    (h : w ∈ se.2) :
    w ∈ (validatePlugin (.obj fields)).warnings := by
  rw [validatePlugin_obj_ok fields se hs]
  simp [List.mem_append]
  tauto

theorem mainSecChecks_str {s : String} (hs : s ≠ "") :
    mainSecChecks (some (.str s)) = .ok
      ((if strContains s ".." then
          ["Main file path cannot contain parent directory references (..)"] else []) ++
        (if strStarts s "/" then ["Main file path cannot be absolute"] else []),
       if strContains s "node_modules" then
         ["Main file should not reference node_modules directly"] else []) := by
  simp [mainSecChecks, jsTruthyOpt, jsTruthy, hs]

/-- C5: for every object manifest in which one of the four required
fields name, version, type, main is missing — absent, `null`, or the
empty string — `validatePlugin` returns `valid = false` and an error
naming the missing field. -/
theorem C5_missing_required (fields : List (String × JVal)) (f : String)
    (hf : f = "name" ∨ f = "version" ∨ f = "type" ∨ f = "main")
    (hmiss : jsGet (.obj fields) f = none ∨ jsGet (.obj fields) f = some .null ∨
      jsGet (.obj fields) f = some (.str "")) :
    ("Missing required field: " ++ f) ∈ (validatePlugin (.obj fields)).errors ∧
      (validatePlugin (.obj fields)).valid = false := by
  have hchk : ∀ r : VRule, r.required = true →
      checkFieldErrors (.obj fields) f r = ["Missing required field: " ++ f] := by
    intro r hr
    rcases hmiss with h | h | h <;> simp [checkFieldErrors, h, hr]
  have hrule : ∃ r, (f, r) ∈ validationRules ∧ r.required = true := by
    rcases hf with h | h | h | h <;> subst h
    · exact ⟨nameRule, by simp [validationRules], rfl⟩
    · exact ⟨versionRule, by simp [validationRules], rfl⟩
    · exact ⟨typeRule, by simp [validationRules], rfl⟩
    · exact ⟨mainRule, by simp [validationRules], rfl⟩
  obtain ⟨r, hrmem, hrreq⟩ := hrule
  have hmemschema :
      ("Missing required field: " ++ f) ∈ (validateAgainstSchema (.obj fields)).1 := by
    unfold validateAgainstSchema
    exact List.mem_flatMap.mpr ⟨(f, r), hrmem, by
      rw [hchk r hrreq]; exact List.mem_singleton_self _⟩
  exact mem_errors_of_mem_schema hmemschema

/-- C5 witness: a manifest lacking `name` gets the naming error and is invalid. -/
theorem C5_missing_required_witness :
    ("Missing required field: " ++ "name") ∈
        (validatePlugin (.obj [("version", .str "1.0.0"), ("type", .str "theme"),
          ("main", .str "a.js")])).errors ∧
      (validatePlugin (.obj [("version", .str "1.0.0"), ("type", .str "theme"),
          ("main", .str "a.js")])).valid = false :=
  C5_missing_required _ "name" (Or.inl rfl) (Or.inl rfl)

/-- C6 counterexample: a manifest whose `main` contains `..` but whose
`permissions` is a truthy non-array: `validateSecurity` pushes the
parent-directory error locally but then throws at
`plugin.permissions.filter`, so the security error never reaches the
returned error list — the claim's promised security error is absent. -/
theorem C6_counterexample :
    strContains "../evil.js" ".." = true ∧
      "Main file path cannot contain parent directory references (..)" ∉
        (validatePlugin (.obj [("name", .str "good-plugin"), ("version", .str "1.0.0"),
          ("type", .str "theme"), ("main", .str "../evil.js"),
          ("permissions", .obj [])])).errors := by
  decide

/-- C6 (amended): for every object manifest whose `main` is a string and
whose `permissions` field is absent, falsy, or an array (so the security
check cannot throw): if `main` contains `..` the errors include the
parent-directory security error, if `main` begins with `/` they include
the absolute-path security error, and in either case `valid = false`. -/
theorem C6_main_security (fields : List (String × JVal)) (s : String)
    (hmain : jsGet (.obj fields) "main" = some (.str s))
    (hperm : permArrOrFalsy (.obj fields) = true) :
    (strContains s ".." = true →
      "Main file path cannot contain parent directory references (..)" ∈
        (validatePlugin (.obj fields)).errors) ∧
    (strStarts s "/" = true →
      "Main file path cannot be absolute" ∈ (validatePlugin (.obj fields)).errors) ∧
    ((strContains s ".." || strStarts s "/") = true →
      (validatePlugin (.obj fields)).valid = false) := by
  obtain ⟨C, D, hp⟩ := permSecChecks_ok hperm
  have hmm : ∀ hs : s ≠ "", validateSecurity (.obj fields) =
      .ok (((if strContains s ".." then
          ["Main file path cannot contain parent directory references (..)"] else []) ++
        (if strStarts s "/" then ["Main file path cannot be absolute"] else [])) ++ C,
        (if strContains s "node_modules" then
          ["Main file should not reference node_modules directly"] else []) ++ D) := by
    intro hs
    exact validateSecurity_eq (by rw [hmain]; exact mainSecChecks_str hs) hp
  have hne1 : strContains s ".." = true → s ≠ "" := by
    intro hc he; rw [he] at hc; simp [strContains] at hc
  have hne2 : strStarts s "/" = true → s ≠ "" := by
    intro hc he; rw [he] at hc; simp [strStarts] at hc
  have hmem1 : strContains s ".." = true →
      "Main file path cannot contain parent directory references (..)" ∈
        (validatePlugin (.obj fields)).errors := by
    intro hc
    refine mem_errors_obj_ok (hmm (hne1 hc)) (Or.inl ?_)
    simp [List.mem_append, hc]
  have hmem2 : strStarts s "/" = true →
      "Main file path cannot be absolute" ∈ (validatePlugin (.obj fields)).errors := by
    intro hc
    refine mem_errors_obj_ok (hmm (hne2 hc)) (Or.inl ?_)
    simp [List.mem_append, hc]
  refine ⟨hmem1, hmem2, ?_⟩
  intro hor
  rcases Bool.or_eq_true_iff.mp hor with hc | hc
  · exact valid_false_of_mem_errors (hmem1 hc) (validatePlugin_obj_valid_eq fields)
  · exact valid_false_of_mem_errors (hmem2 hc) (validatePlugin_obj_valid_eq fields)

/-- C6 witness: a manifest with `main = "../up.js"` and no `permissions`
gets the parent-directory security error and is invalid. -/
theorem C6_main_security_witness :
    ("Main file path cannot contain parent directory references (..)" ∈
        (validatePlugin (.obj [("name", .str "good-plugin"), ("version", .str "1.0.0"),
          ("type", .str "theme"), ("main", .str "../up.js")])).errors) ∧
      (validatePlugin (.obj [("name", .str "good-plugin"), ("version", .str "1.0.0"),
        ("type", .str "theme"), ("main", .str "../up.js")])).valid = false := by
  have h := C6_main_security [("name", .str "good-plugin"), ("version", .str "1.0.0"),
    ("type", .str "theme"), ("main", .str "../up.js")] "../up.js" rfl (by decide)
  exact ⟨h.1 (by decide), h.2.2 (by decide)⟩

/-- `permSecChecks` on an all-string permissions array, in terms of the
token list. -/
theorem permSecChecks_strArr (toks : List String) :
    permSecChecks (some (.arr (toks.map JVal.str))) = .ok
      (toks.flatMap fun t =>
        if allowedPermissions.contains t then [] else ["Unknown permission: " ++ t],
       if (toks.filter fun t => dangerousPermissions.contains t).isEmpty then []
       else ["Plugin requests potentially dangerous permissions: " ++
         ", ".intercalate (toks.filter fun t => dangerousPermissions.contains t)]) := by
  have hguard : jsTruthyOpt (some (JVal.arr (toks.map JVal.str))) = true := rfl
  rw [show permSecChecks (some (.arr (toks.map JVal.str))) = .ok
      ((toks.map JVal.str).flatMap fun p =>
        match p with
        | .str t => if allowedPermissions.contains t then [] else ["Unknown permission: " ++ t]
        | other => ["Unknown permission: " ++ jsTemplateStr other],
       if ((toks.map JVal.str).filter fun p =>
            match p with
            | .str t => dangerousPermissions.contains t
            | _ => false).isEmpty then []
       else ["Plugin requests potentially dangerous permissions: " ++
         ", ".intercalate (((toks.map JVal.str).filter fun p =>
            match p with
            | .str t => dangerousPermissions.contains t
            | _ => false).map fun v => jsTemplateStr v)]) from rfl]
  rw [List.flatMap_map]
  rw [show ((toks.map JVal.str).filter fun p =>
      match p with
      | .str t => dangerousPermissions.contains t
      | _ => false) =
    (toks.filter fun t => dangerousPermissions.contains t).map JVal.str from
    List.filter_map JVal.str toks]
  rw [show ((toks.filter fun t => dangerousPermissions.contains t).map JVal.str).map
      (fun v => jsTemplateStr v) = toks.filter fun t => dangerousPermissions.contains t by
    rw [List.map_map]; exact List.map_id _]
  rw [show ((toks.filter fun t => dangerousPermissions.contains t).map JVal.str).isEmpty =
      (toks.filter fun t => dangerousPermissions.contains t).isEmpty by
    cases toks.filter fun t => dangerousPermissions.contains t <;> rfl]

/-- C7 counterexample: a manifest requesting the unknown permission
"bogus" but whose `main` is a (truthy) number: `validateSecurity` throws
at `plugin.main.includes` before reaching the permission loop, so no
"Unknown permission" error is reported — the claim's per-token error is
not produced for every manifest whose permissions are a token sequence. -/
theorem C7_counterexample :
    allowedPermissions.contains "bogus" = false ∧
      "Unknown permission: bogus" ∉
        (validatePlugin (.obj [("name", .str "good-plugin"), ("version", .str "1.0.0"),
          ("type", .str "theme"), ("main", .num 1),
          ("permissions", .arr [.str "bogus"])])).errors := by
  decide

/-- C7 (amended): for every object manifest whose `permissions` is an
array of string tokens, provided `main` is absent, falsy or a string (so
the security check reaches the permission section without throwing):
every token outside the allow-list {fs-read, fs-write, network,
ui-modify, config-modify, system-info} contributes an error naming it,
and if any requested token is in {fs-write, network, system-info} the
warnings include the single aggregate dangerous-permissions warning
listing the requested dangerous tokens. -/
theorem C7_permission_checks (fields : List (String × JVal)) (toks : List String)
    (hperm : jsGet (.obj fields) "permissions" = some (.arr (toks.map JVal.str)))
    (hmain : mainStrOrFalsy (.obj fields) = true) :
    (∀ t ∈ toks, allowedPermissions.contains t = false →
      ("Unknown permission: " ++ t) ∈ (validatePlugin (.obj fields)).errors) ∧
    ((toks.filter fun t => dangerousPermissions.contains t) ≠ [] →
      ("Plugin requests potentially dangerous permissions: " ++
          ", ".intercalate (toks.filter fun t => dangerousPermissions.contains t)) ∈
        (validatePlugin (.obj fields)).warnings) := by
  obtain ⟨A, B, hm⟩ := mainSecChecks_ok hmain
  have hp : permSecChecks (jsGet (.obj fields) "permissions") = .ok
      (toks.flatMap fun t =>
        if allowedPermissions.contains t then [] else ["Unknown permission: " ++ t],
       if (toks.filter fun t => dangerousPermissions.contains t).isEmpty then []
       else ["Plugin requests potentially dangerous permissions: " ++
         ", ".intercalate (toks.filter fun t => dangerousPermissions.contains t)]) := by
    rw [hperm]; exact permSecChecks_strArr toks
  have hsec := validateSecurity_eq hm hp
  constructor
  · intro t ht hbad
    refine mem_errors_obj_ok hsec (Or.inl ?_)
    refine List.mem_append_right A ?_
    exact List.mem_flatMap.mpr ⟨t, ht, by rw [hbad]; exact List.mem_singleton_self _⟩
  · intro hne
    refine mem_warnings_obj_ok hsec ?_
    refine List.mem_append_right B ?_
    rw [show (toks.filter fun t => dangerousPermissions.contains t).isEmpty = false by
      cases hft : toks.filter fun t => dangerousPermissions.contains t with
      | nil => exact absurd hft hne
      | cons a l => rfl]
    exact List.mem_singleton_self _

/-- C7 witness: permissions ["bogus", "fs-write"] yield the unknown-token
error and the aggregate dangerous warning. -/
theorem C7_permission_checks_witness :
    ("Unknown permission: " ++ "bogus") ∈
        (validatePlugin (.obj [("name", .str "good-plugin"), ("version", .str "1.0.0"),
          ("type", .str "theme"), ("main", .str "a.js"),
          ("permissions", .arr [.str "bogus", .str "fs-write"])])).errors ∧
      ("Plugin requests potentially dangerous permissions: " ++
          ", ".intercalate (["bogus", "fs-write"].filter
            fun t => dangerousPermissions.contains t)) ∈
        (validatePlugin (.obj [("name", .str "good-plugin"), ("version", .str "1.0.0"),
          ("type", .str "theme"), ("main", .str "a.js"),
          ("permissions", .arr [.str "bogus", .str "fs-write"])])).warnings := by
  have h := C7_permission_checks [("name", .str "good-plugin"), ("version", .str "1.0.0"),
    ("type", .str "theme"), ("main", .str "a.js"),
    ("permissions", .arr [.str "bogus", .str "fs-write"])] ["bogus", "fs-write"] rfl rfl
  exact ⟨h.1 "bogus" (by decide) (by decide), h.2 (by decide)⟩

/-- C9 counterexample: a manifest named "self" whose `dependencies` is
the keyed (object) collection form listing "self": the self-dependency
check is `plugin.dependencies.includes && ...`, and objects have no
`includes`, so the check is skipped and "Plugin cannot depend on itself"
is never produced — the claim fails for the keyed collection form. -/
theorem C9_counterexample :
    jsGet (.obj [("name", .str "self"), ("version", .str "1.0.0"),
        ("type", .str "theme"), ("main", .str "self.js"),
        ("dependencies", .obj [("self", .str "1.0.0")])]) "dependencies" =
      some (.obj [("self", .str "1.0.0")]) ∧
    "Plugin cannot depend on itself" ∉
      (validatePlugin (.obj [("name", .str "self"), ("version", .str "1.0.0"),
        ("type", .str "theme"), ("main", .str "self.js"),
        ("dependencies", .obj [("self", .str "1.0.0")])])).errors :=
  ⟨rfl, by decide⟩

/-- C9 (amended): the self-dependency error is produced when
`dependencies` is an array containing the manifest's (string) name —
provided `main` is absent/falsy/a string and `permissions` is
absent/falsy/an array, so that `validateSecurity` does not throw and the
dependency check is reached; in particular name "self" with
dependencies ["self"] gets "Plugin cannot depend on itself".  For the
keyed (object) collection form, the check is skipped (no `includes`). -/
theorem C9_self_dependency (fields : List (String × JVal)) (nm : String) (ds : List JVal)
    (hname : jsGet (.obj fields) "name" = some (.str nm))
    (hdeps : jsGet (.obj fields) "dependencies" = some (.arr ds))
    (hmem : JVal.str nm ∈ ds)
    (hmain : mainStrOrFalsy (.obj fields) = true)
    (hperm : permArrOrFalsy (.obj fields) = true) :
    "Plugin cannot depend on itself" ∈ (validatePlugin (.obj fields)).errors ∧
      (validatePlugin (.obj fields)).valid = false := by
  obtain ⟨A, B, hm⟩ := mainSecChecks_ok hmain
  obtain ⟨C, D, hp⟩ := permSecChecks_ok hperm
  have hsec := validateSecurity_eq hm hp
  have hself : depsSelfCheck (.arr ds) (jsGet (.obj fields) "name") = true := by
    rw [hname]
    exact List.any_eq_true.mpr ⟨JVal.str nm, hmem, by simp [sameValueZero]⟩
  have hdep : "Plugin cannot depend on itself" ∈ (validateDependencies (.obj fields)).1 := by
    simp only [validateDependencies, hdeps, jsTruthy, hself, Bool.not_true,
      Bool.false_eq_true, if_false, if_true]
    exact List.mem_append_right _ (List.mem_singleton_self _)
  have hmem' := mem_errors_obj_ok hsec (Or.inr hdep)
  exact ⟨hmem', valid_false_of_mem_errors hmem' (validatePlugin_obj_valid_eq fields)⟩

/-- C9 witness: the claim's concrete scenario in array form — name "self",
dependencies ["self"]. -/
theorem C9_self_dependency_witness :
    "Plugin cannot depend on itself" ∈
        (validatePlugin (.obj [("name", .str "self"), ("version", .str "1.0.0"),
          ("type", .str "theme"), ("main", .str "self.js"),
          ("dependencies", .arr [.str "self"])])).errors ∧
      (validatePlugin (.obj [("name", .str "self"), ("version", .str "1.0.0"),
        ("type", .str "theme"), ("main", .str "self.js"),
        ("dependencies", .arr [.str "self"])])).valid = false :=
  C9_self_dependency [("name", .str "self"), ("version", .str "1.0.0"),
    ("type", .str "theme"), ("main", .str "self.js"),
    ("dependencies", .arr [.str "self"])] "self" [.str "self"]
    rfl rfl (List.mem_singleton_self _) rfl rfl

/-! ## Manifest loader (`PluginLoader`, src/lib/utils/dump.js)

Discovery and file reading are I/O, so a discovered manifest file is
modelled by its path and the outcome of `JSON.parse` on its content
(`SyntaxError` message or parsed value). -/

structure PFile where
  path : String
  parsed : Except String JVal

/-- A manifest the loader accepted (`_path`/`_directory`/`_loaded` are
attached in the source; only the path matters to the claims). -/
structure LoadedPlugin where
  val : JVal
  path : String

def validTypes : List String :=
  ["theme", "config-parser", "ui-component", "validator", "exporter"]

/-- The loader's own `validatePlugin`: truthiness of the four required
fields (first failure throws), `type` membership, and the unanchored
`^\d+\.\d+\.\d+` version test (with `test`'s string coercion). -/
def loaderValidate (v : JVal) (path : String) : Except String Unit :=
  let rec requiredLoop : List String → Except String Unit
    | [] => .ok ()
    | f :: rest =>
      if jsTruthyOpt (jsGet v f) then requiredLoop rest
      else .error ("Plugin " ++ path ++ " missing required field: " ++ f)
  match requiredLoop ["name", "version", "type", "main"] with
  | .error e => .error e
  | .ok _ =>
    let tOk :=
      match jsGet v "type" with
      | some (.str t) => validTypes.contains t
      | _ => false
    if !tOk then
      .error ("Plugin " ++ path ++ " has invalid type: " ++
        jsTemplateStr ((jsGet v "type").getD .null) ++ ". Valid types: " ++
        ", ".intercalate validTypes)
    else if !versionCoreTest (jsTemplateStr ((jsGet v "version").getD .null)) then
      .error ("Plugin " ++ path ++ " has invalid version format: " ++
        jsTemplateStr ((jsGet v "version").getD .null))
    else .ok ()

/-- `loadPlugin(path)`: parse, validate, attach metadata; a `SyntaxError`
and a validation failure are wrapped differently. -/
def loadPlugin (f : PFile) : Except String LoadedPlugin :=
  match f.parsed with
  | .error e => .error ("Invalid JSON in plugin file " ++ f.path ++ ": " ++ e)
  | .ok v =>
    match loaderValidate v f.path with
    | .error e => .error ("Failed to load plugin " ++ f.path ++ ": " ++ e)
    | .ok _ => .ok { val := v, path := f.path }

/-- `plugin.name`, the key under which a loaded plugin is stored. -/
def nameOf (p : LoadedPlugin) : JVal :=
  (jsGet p.val "name").getD .null

/-- `Map.get`-style association lookup with SameValueZero key equality. -/
def aFind (k : JVal) : List (JVal × LoadedPlugin) → Option LoadedPlugin
  | [] => none
  | kv :: rest => if sameValueZero kv.1 k then some kv.2 else aFind k rest

/-- `Map.has`. -/
def assocHas (k : JVal) (m : List (JVal × LoadedPlugin)) : Bool :=
  (aFind k m).isSome

/-- The log entries `loadAllPlugins` emits: a duplicate-name warning or a
per-file load error. -/
inductive LoadLog where
  | dup (name : JVal) (path : String) : LoadLog
  | fail (path : String) (msg : String) : LoadLog

def isDupLog : LoadLog → Bool
  | .dup _ _ => true
  | .fail _ _ => false

/-- The `loadAllPlugins` loop: per-file failures are recorded and skipped,
an already-seen name is skipped with a duplicate warning, otherwise the
plugin is stored under its name. -/
def loadAllGo : List PFile → List (JVal × LoadedPlugin) → List LoadLog →
    List (JVal × LoadedPlugin) × List LoadLog
  | [], acc, log => (acc, log)
  | f :: rest, acc, log =>
    match loadPlugin f with
    | .error e => loadAllGo rest acc (log ++ [.fail f.path e])
    | .ok p =>
      if assocHas (nameOf p) acc then loadAllGo rest acc (log ++ [.dup (nameOf p) f.path])
      else loadAllGo rest (acc ++ [(nameOf p, p)]) log

/-- `loadAllPlugins()` on a given discovery result. -/
def loadAllPlugins (files : List PFile) : List (JVal × LoadedPlugin) × List LoadLog :=
  loadAllGo files [] []

/-- Claim-side description (from the spec's words): the first file in
discovery order that loads successfully with the given name. -/
def firstSuccessByName (files : List PFile) (k : JVal) : Option LoadedPlugin :=
  match files with
  | [] => none
  | f :: rest =>
    match loadPlugin f with
    | .ok p => if sameValueZero (nameOf p) k then some p else firstSuccessByName rest k
    | .error _ => firstSuccessByName rest k

def loadOk (f : PFile) : Bool :=
  match loadPlugin f with
  | .ok _ => true
  | .error _ => false

/-! ### Lemmas about the loader -/

theorem sameValueZero_symm {a b : JVal} (h : sameValueZero a b = true) :
    sameValueZero b a = true := by
  cases a <;> cases b <;> simp_all [sameValueZero]

theorem sameValueZero_trans {a b c : JVal} (h1 : sameValueZero a b = true)
    (h2 : sameValueZero b c = true) : sameValueZero a c = true := by
  cases a <;> cases b <;> cases c <;> simp_all [sameValueZero]

theorem aFind_append_single (k n : JVal) (p : LoadedPlugin)
    (acc : List (JVal × LoadedPlugin)) :
    aFind k (acc ++ [(n, p)]) =
      match aFind k acc with
      | some q => some q
      | none => if sameValueZero n k then some p else none := by
  induction acc with
  | nil => rfl
  | cons kv rest ih =>
    by_cases h : sameValueZero kv.1 k = true
    · simp [aFind, h]
    · simp only [List.cons_append, aFind, h, Bool.false_eq_true, if_false]
      exact ih

theorem aFind_none_of_has_false {k : JVal} {acc : List (JVal × LoadedPlugin)}
    (h : assocHas k acc = false) : aFind k acc = none := by
  unfold assocHas at h
  cases hf : aFind k acc with
  | none => rfl
  | some q => rw [hf] at h; simp at h

/-- If the new name is not yet present, no SameValueZero-equivalent key is
present either. -/
theorem aFind_none_of_equiv {k n : JVal} {acc : List (JVal × LoadedPlugin)}
    (hn : aFind n acc = none) (hk : sameValueZero n k = true) : aFind k acc = none := by
  induction acc with
  | nil => rfl
  | cons kv rest ih =>
    unfold aFind at hn ⊢
    by_cases h : sameValueZero kv.1 n = true
    · rw [if_pos h] at hn; exact absurd hn (by simp)
    · rw [if_neg h] at hn
      have hknot : sameValueZero kv.1 k = false := by
        by_contra hc
        simp only [Bool.not_eq_false] at hc
        exact h (sameValueZero_trans hc (sameValueZero_symm hk))
      rw [hknot]
      simp only [Bool.false_eq_true, if_false]
      exact ih hn

/-- Lookup after the loop equals lookup in the accumulator, falling back
to the first successful load with that name among the remaining files. -/
theorem loadAllGo_find (files : List PFile) (acc : List (JVal × LoadedPlugin))
    (log : List LoadLog) (k : JVal) :
    aFind k (loadAllGo files acc log).1 =
      match aFind k acc with
      | some q => some q
      | none => firstSuccessByName files k := by
  induction files generalizing acc log with
  | nil => cases h : aFind k acc <;> simp [loadAllGo, firstSuccessByName, h]
  | cons f rest ih =>
    cases hl : loadPlugin f with
    | error e =>
      rw [show loadAllGo (f :: rest) acc log =
        loadAllGo rest acc (log ++ [.fail f.path e]) by simp [loadAllGo, hl]]
      rw [ih]
      rw [show firstSuccessByName (f :: rest) k = firstSuccessByName rest k by
        simp [firstSuccessByName, hl]]
    | ok p =>
      by_cases hhas : assocHas (nameOf p) acc = true
      · rw [show loadAllGo (f :: rest) acc log =
          loadAllGo rest acc (log ++ [.dup (nameOf p) f.path]) by simp [loadAllGo, hl, hhas]]
        rw [ih]
        by_cases hsv : sameValueZero (nameOf p) k = true
        · -- an equivalent key is already stored, so both sides take it
          cases hacc : aFind k acc with
          | some q => rfl
          | none =>
            exfalso
            have := aFind_none_of_equiv hacc (sameValueZero_symm hsv)
            unfold assocHas at hhas
            rw [this] at hhas
            simp at hhas
        · rw [show firstSuccessByName (f :: rest) k =
            firstSuccessByName rest k by simp [firstSuccessByName, hl, hsv]]
      · have hhasf : assocHas (nameOf p) acc = false := by
          cases h : assocHas (nameOf p) acc
          · rfl
          · exact absurd h hhas
        rw [show loadAllGo (f :: rest) acc log =
          loadAllGo rest (acc ++ [(nameOf p, p)]) log by simp [loadAllGo, hl, hhasf]]
        rw [ih, aFind_append_single]
        by_cases hsv : sameValueZero (nameOf p) k = true
        · have hknone : aFind k acc = none :=
            aFind_none_of_equiv (aFind_none_of_has_false hhasf) hsv
          rw [hknone]
          simp only [hsv, if_true]
          rw [show firstSuccessByName (f :: rest) k = some p by
            simp [firstSuccessByName, hl, hsv]]
        · have hsvf : sameValueZero (nameOf p) k = false := by
            cases h : sameValueZero (nameOf p) k
            · rfl
            · exact absurd h hsv
          rw [hsvf]
          simp only [Bool.false_eq_true, if_false]
          rw [show firstSuccessByName (f :: rest) k = firstSuccessByName rest k by
            simp [firstSuccessByName, hl, hsvf]]
          cases hacc : aFind k acc <;> rfl

theorem aFind_none_all {k : JVal} {acc : List (JVal × LoadedPlugin)}
    (h : aFind k acc = none) :
    ∀ kv ∈ acc, sameValueZero kv.1 k = false := by
  induction acc with
  | nil => intro kv hkv; exact absurd hkv (List.not_mem_nil kv)
  | cons x rest ih =>
    intro kv hkv
    unfold aFind at h
    by_cases hx : sameValueZero x.1 k = true
    · rw [if_pos hx] at h; exact absurd h (by simp)
    · rw [if_neg hx] at h
      rcases List.mem_cons.mp hkv with rfl | hmem
      · cases hgoal : sameValueZero kv.1 k
        · rfl
        · exact absurd hgoal hx
      · exact ih h kv hmem

/-- The resulting map does not depend on the log accumulator. -/
theorem loadAllGo_map_log (files : List PFile) (acc : List (JVal × LoadedPlugin))
    (log1 log2 : List LoadLog) :
    (loadAllGo files acc log1).1 = (loadAllGo files acc log2).1 := by
  induction files generalizing acc log1 log2 with
  | nil => rfl
  | cons f rest ih =>
    cases hl : loadPlugin f with
    | error e => simp only [loadAllGo, hl]; exact ih _ _ _
    | ok p =>
      by_cases hhas : assocHas (nameOf p) acc = true
      · simp only [loadAllGo, hl, hhas, if_true]; exact ih _ _ _
      · have hhasf : assocHas (nameOf p) acc = false := by
          cases h : assocHas (nameOf p) acc
          · rfl
          · exact absurd h hhas
        simp only [loadAllGo, hl, hhasf, Bool.false_eq_true, if_false]; exact ih _ _ _

/-- Files that fail to load contribute nothing: the map equals the map
computed from the successfully loading files alone. -/
theorem loadAllGo_filter_ok (files : List PFile) (acc : List (JVal × LoadedPlugin))
    (log : List LoadLog) :
    (loadAllGo files acc log).1 = (loadAllGo (files.filter loadOk) acc log).1 := by
  induction files generalizing acc log with
  | nil => rfl
  | cons f rest ih =>
    cases hl : loadPlugin f with
    | error e =>
      rw [show (f :: rest).filter loadOk = rest.filter loadOk by
        simp [List.filter_cons, loadOk, hl]]
      rw [show loadAllGo (f :: rest) acc log =
        loadAllGo rest acc (log ++ [.fail f.path e]) by simp [loadAllGo, hl]]
      rw [ih, loadAllGo_map_log]
    | ok p =>
      rw [show (f :: rest).filter loadOk = f :: rest.filter loadOk by
        simp [List.filter_cons, loadOk, hl]]
      by_cases hhas : assocHas (nameOf p) acc = true
      · rw [show loadAllGo (f :: rest) acc log =
          loadAllGo rest acc (log ++ [.dup (nameOf p) f.path]) by
            simp [loadAllGo, hl, hhas]]
        rw [show loadAllGo (f :: rest.filter loadOk) acc log =
          loadAllGo (rest.filter loadOk) acc (log ++ [.dup (nameOf p) f.path]) by
            simp [loadAllGo, hl, hhas]]
        exact ih _ _
      · have hhasf : assocHas (nameOf p) acc = false := by
          cases h : assocHas (nameOf p) acc
          · rfl
          · exact absurd h hhas
        rw [show loadAllGo (f :: rest) acc log =
          loadAllGo rest (acc ++ [(nameOf p, p)]) log by simp [loadAllGo, hl, hhasf]]
        rw [show loadAllGo (f :: rest.filter loadOk) acc log =
          loadAllGo (rest.filter loadOk) (acc ++ [(nameOf p, p)]) log by
            simp [loadAllGo, hl, hhasf]]
        exact ih _ _

/-- Size accounting: one map entry or one duplicate warning per
successfully loading file. -/
theorem loadAllGo_count (files : List PFile) (acc : List (JVal × LoadedPlugin))
    (log : List LoadLog) :
    (loadAllGo files acc log).1.length +
        ((loadAllGo files acc log).2.filter isDupLog).length =
      acc.length + (log.filter isDupLog).length + (files.filter loadOk).length := by
  induction files generalizing acc log with
  | nil => simp [loadAllGo]
  | cons f rest ih =>
    cases hl : loadPlugin f with
    | error e =>
      rw [show loadAllGo (f :: rest) acc log =
        loadAllGo rest acc (log ++ [.fail f.path e]) by simp [loadAllGo, hl]]
      rw [show (f :: rest).filter loadOk = rest.filter loadOk by
        simp [List.filter_cons, loadOk, hl]]
      rw [ih]
      simp [List.filter_append, isDupLog]
    | ok p =>
      rw [show (f :: rest).filter loadOk = f :: rest.filter loadOk by
        simp [List.filter_cons, loadOk, hl]]
      by_cases hhas : assocHas (nameOf p) acc = true
      · rw [show loadAllGo (f :: rest) acc log =
          loadAllGo rest acc (log ++ [.dup (nameOf p) f.path]) by
            simp [loadAllGo, hl, hhas]]
        rw [ih]
        simp [List.filter_append, isDupLog]
        omega
      · have hhasf : assocHas (nameOf p) acc = false := by
          cases h : assocHas (nameOf p) acc
          · rfl
          · exact absurd h hhas
        rw [show loadAllGo (f :: rest) acc log =
          loadAllGo rest (acc ++ [(nameOf p, p)]) log by simp [loadAllGo, hl, hhasf]]
        rw [ih]
        simp
        omega

/-- The stored keys stay pairwise distinct (no duplicate names in the map). -/
theorem loadAllGo_keys_distinct (files : List PFile) (acc : List (JVal × LoadedPlugin))
    (log : List LoadLog)
    (hacc : acc.Pairwise (fun a b => sameValueZero a.1 b.1 = false)) :
    (loadAllGo files acc log).1.Pairwise (fun a b => sameValueZero a.1 b.1 = false) := by
  induction files generalizing acc log with
  | nil => exact hacc
  | cons f rest ih =>
    cases hl : loadPlugin f with
    | error e =>
      rw [show loadAllGo (f :: rest) acc log =
        loadAllGo rest acc (log ++ [.fail f.path e]) by simp [loadAllGo, hl]]
      exact ih _ _ hacc
    | ok p =>
      by_cases hhas : assocHas (nameOf p) acc = true
      · rw [show loadAllGo (f :: rest) acc log =
          loadAllGo rest acc (log ++ [.dup (nameOf p) f.path]) by simp [loadAllGo, hl, hhas]]
        exact ih _ _ hacc
      · have hhasf : assocHas (nameOf p) acc = false := by
          cases h : assocHas (nameOf p) acc
          · rfl
          · exact absurd h hhas
        rw [show loadAllGo (f :: rest) acc log =
          loadAllGo rest (acc ++ [(nameOf p, p)]) log by simp [loadAllGo, hl, hhasf]]
        refine ih _ _ ?_
        rw [List.pairwise_append]
        refine ⟨hacc, List.pairwise_singleton _ _, ?_⟩
        intro a ha b hb
        have hb' : b = (nameOf p, p) := by simpa using hb
        subst hb'
        exact aFind_none_all (aFind_none_of_has_false hhasf) a ha

/-- C8: `loadAllPlugins` keeps the first successfully loaded manifest
bearing each name (lookup equals first-success in discovery order, keys
stay pairwise distinct), a per-file parse or validation failure never
aborts the remaining files (the map equals the one computed from the
loadable files alone), and the map size is the number of successfully
loading files minus the duplicate-warning count (every later duplicate
is skipped with one warning). -/
theorem C8_loader_duplicates (files : List PFile) :
    (∀ k, aFind k (loadAllPlugins files).1 = firstSuccessByName files k) ∧
      (loadAllPlugins files).1 = (loadAllPlugins (files.filter loadOk)).1 ∧
      (loadAllPlugins files).1.length +
          ((loadAllPlugins files).2.filter isDupLog).length =
        (files.filter loadOk).length ∧
      (loadAllPlugins files).1.Pairwise (fun a b => sameValueZero a.1 b.1 = false) := by
  refine ⟨fun k => ?_, ?_, ?_, ?_⟩
  · rw [loadAllPlugins, loadAllGo_find]; rfl
  · exact loadAllGo_filter_ok files [] []
  · simpa using loadAllGo_count files [] []
  · exact loadAllGo_keys_distinct files [] [] List.Pairwise.nil

/-! ## Plugin registry activation (`PluginRegistry`, src/lib/plugins/PluginRegistry.js)

Module loading, instantiation and the plugin's `initialize` are external
effects; a plugin's observable activation behaviour is described by a
`PluginDef` in an environment: its manifest dependency list, whether its
module loads, whether the `PluginAPI.createPlugin` interface check
passes, and what its instance does.  The registry state carries the
active-plugin map (name → activation timestamp, the timestamp drawn from
a clock counter standing in for `new Date()`), the hook table, and an
event log instrumenting the run (an event is appended exactly where the
corresponding source line executes). -/

inductive Event where
  | initInvoked (name : String) : Event
  | hooksRegistered (name : String) : Event
  | activated (name : String) : Event
deriving DecidableEq

/-- An entry of `this.hooks.get(hookName)`:
`{ plugin, handler, priority: handler.priority || 0 }` (the handler
itself plays no role in the activation claims). -/
structure RegEntry where
  plugin : String
  priority : Int
deriving DecidableEq

/-- Observable behaviour of a plugin instance during activation:
whether `initialize` exists, which `api.hooks.register` calls it makes
(hook name and handler priority) before completing or throwing, and the
instance's `hooks` accessor entries. -/
structure InstanceSpec where
  hasInitialize : Bool
  initRegisters : List (String × Int)
  initThrows : Bool
  hooks : List (String × Int)
deriving DecidableEq

structure PluginDef where
  deps : List String
  version : String
  moduleLoads : Bool
  modulePath : String
  instanceOk : Bool
  inst : InstanceSpec
deriving DecidableEq

abbrev Env := List (String × PluginDef)

structure RegState where
  activePlugins : List (String × Nat)
  hooksTable : List (String × List RegEntry)
  log : List Event
  clock : Nat
deriving DecidableEq

/-- `Map.get` on an insertion-ordered association list (string keys). -/
def aGet {β : Type} : List (String × β) → String → Option β
  | [], _ => none
  | kv :: rest, k => if kv.1 = k then some kv.2 else aGet rest k

/-- `Map.set` on an insertion-ordered association list. -/
def tableSet (t : List (String × List RegEntry)) (hook : String) (l : List RegEntry) :
    List (String × List RegEntry) :=
  match t with
  | [] => [(hook, l)]
  | kv :: rest => if kv.1 = hook then (hook, l) :: rest else kv :: tableSet rest hook l

/-- The `hooks.register` operation of the plugin API: ensure the key and
push, with no re-sort (src/lib/plugins/PluginRegistry.js:272-281). -/
def regHookPush (t : List (String × List RegEntry)) (hook : String) (e : RegEntry) :
    List (String × List RegEntry) :=
  tableSet t hook (((aGet t hook).getD []) ++ [e])

def insertDescR (e : RegEntry) : List RegEntry → List RegEntry
  | [] => [e]
  | x :: xs => if x.priority ≤ e.priority then e :: x :: xs else x :: insertDescR e xs

/-- The stable descending re-sort applied by `registerPluginHooks`. -/
def sortDescR : List RegEntry → List RegEntry
  | [] => []
  | x :: xs => insertDescR x (sortDescR xs)

/-- One `registerPluginHooks` entry: ensure the key, push, re-sort
(src/lib/plugins/PluginRegistry.js:210-223). -/
def regHookPushSort (t : List (String × List RegEntry)) (hook : String) (e : RegEntry) :
    List (String × List RegEntry) :=
  tableSet t hook (sortDescR (((aGet t hook).getD []) ++ [e]))

/-- `registerPluginHooks(plugin, instance)` over the instance's `hooks`
accessor entries. -/
def registerPluginHooks (name : String) (hooks : List (String × Int))
    (t : List (String × List RegEntry)) : List (String × List RegEntry) :=
  hooks.foldl (fun t he => regHookPushSort t he.1 ⟨name, he.2⟩) t

/-- The `api.hooks.register` calls made by a plugin's `initialize`. -/
def applyInitRegisters (name : String) (regs : List (String × Int))
    (t : List (String × List RegEntry)) : List (String × List RegEntry) :=
  regs.foldl (fun t he => regHookPush t he.1 ⟨name, he.2⟩) t

/-- Result of an activation step: JavaScript exceptions propagate but
mutations persist, so the error case carries the state too. -/
inductive ActResult where
  | ok (s : RegState) : ActResult
  | err (msg : String) (s : RegState) : ActResult
deriving DecidableEq

def stateOf : ActResult → RegState
  | .ok s => s
  | .err _ s => s

/-- The tail of `activatePlugin`'s try block, after the dependency
check succeeded: module load, API and instance construction,
`initialize` (which performs the instance's `api.hooks.register` calls
and may then throw), `registerPluginHooks`, and finally the
active-plugin record with its activation timestamp (the clock counter
standing in for `new Date().toISOString()`). -/
def finishActivation (name : String) (pd : PluginDef) (s1 : RegState) : ActResult :=
  if !pd.moduleLoads then
    .err ("Failed to activate plugin " ++ name ++ ": " ++
      "Failed to load plugin module " ++ pd.modulePath ++ ": module error") s1
  else if !pd.instanceOk then
    .err ("Failed to activate plugin " ++ name ++ ": " ++
      "Plugin " ++ name ++ " must implement its declared interface") s1
  else
    let s2 :=
      if pd.inst.hasInitialize then
        { s1 with
          log := s1.log ++ [Event.initInvoked name],
          hooksTable := applyInitRegisters name pd.inst.initRegisters s1.hooksTable }
      else s1
    if pd.inst.hasInitialize && pd.inst.initThrows then
      .err ("Failed to activate plugin " ++ name ++ ": initialize failed") s2
    else
      let s3 :=
        { s2 with
          hooksTable := registerPluginHooks name pd.inst.hooks s2.hooksTable,
          log := s2.log ++ [Event.hooksRegistered name] }
      .ok { s3 with
        activePlugins := s3.activePlugins ++ [(name, s3.clock)],
        clock := s3.clock + 1,
        log := s3.log ++ [Event.activated name] }

/-- `checkDependencies` parameterized by the recursive activation call:
each listed dependency must have a manifest (`MissingDependencyError`
otherwise) and is recursively activated when not yet active; an inner
activation failure propagates unwrapped. -/
def checkDepsWith (act : String → RegState → ActResult) (env : Env) :
    List String → RegState → ActResult
  | [], s => .ok s
  | d :: rest, s =>
    if (aGet env d).isNone then .err ("Missing dependency: " ++ d) s
    else if (aGet s.activePlugins d).isSome then checkDepsWith act env rest s
    else
      match act d s with
      | ActResult.err m s1 => .err m s1
      | ActResult.ok s1 => checkDepsWith act env rest s1

/-- `activatePlugin(name)` with a fuel bound standing in for the call
stack (the source has no cycle protection; running out of fuel is the
stack-overflow error).  Steps in source order: manifest lookup
(`NotFoundError`, unwrapped), already-active no-op, then inside the
try/catch: dependency check, then `finishActivation`. -/
def activateGo (env : Env) : Nat → String → RegState → ActResult
  | 0, _, s => .err "Maximum call stack size exceeded" s
  | fuel + 1, name, s =>
    match aGet env name with
    | none => .err ("Plugin not found: " ++ name) s
    | some pd =>
      if (aGet s.activePlugins name).isSome then .ok s
      else
        match checkDepsWith (fun d s' => activateGo env fuel d s') env pd.deps s with
        | ActResult.err m s1 => .err ("Failed to activate plugin " ++ name ++ ": " ++ m) s1
        | ActResult.ok s1 => finishActivation name pd s1

/-- The `checkDependencies` call made at recursion depth `fuel`. -/
def checkDepsGo (env : Env) (fuel : Nat) : List String → RegState → ActResult :=
  checkDepsWith (fun d s' => activateGo env fuel d s') env

theorem checkDepsGo_eq (env : Env) (fuel : Nat) (ds : List String) (s : RegState) :
    checkDepsWith (fun d s' => activateGo env fuel d s') env ds s =
      checkDepsGo env fuel ds s := rfl

theorem checkDepsGo_nil (env : Env) (fuel : Nat) (s : RegState) :
    checkDepsGo env fuel [] s = .ok s := rfl

theorem checkDepsGo_cons (env : Env) (fuel : Nat) (d : String) (rest : List String)
    (s : RegState) :
    checkDepsGo env fuel (d :: rest) s =
      if (aGet env d).isNone then .err ("Missing dependency: " ++ d) s
      else if (aGet s.activePlugins d).isSome then checkDepsGo env fuel rest s
      else
        match activateGo env fuel d s with
        | ActResult.err m s1 => .err m s1
        | ActResult.ok s1 => checkDepsGo env fuel rest s1 := rfl

/-- C3: `activatePlugin` on an already-active plugin (whose manifest is
loaded) is a no-op success: it returns `true` with the registry state —
the hook table, the event log (so no second `initialize`), and the
active-plugin record with its activation timestamp — left exactly as it
was. -/
theorem C3_activate_idempotent (env : Env) (fuel : Nat) (name : String) (s : RegState)
    (pd : PluginDef) (hm : aGet env name = some pd)
    (ha : (aGet s.activePlugins name).isSome = true) :
    activateGo env (fuel + 1) name s = .ok s := by
  simp [activateGo, checkDepsGo_eq, hm, ha]

/-- C3 witness: re-activating the active plugin "p" leaves the registry
(with its hook entry and timestamped record) unchanged. -/
theorem C3_activate_idempotent_witness :
    activateGo [("p", ⟨[], "1.0.0", true, "p/main.js", true, ⟨true, [], false, [("ui:render", 2)]⟩⟩)]
        5 "p" ⟨[("p", 0)], [("ui:render", [⟨"p", 2⟩])], [], 1⟩ =
      .ok ⟨[("p", 0)], [("ui:render", [⟨"p", 2⟩])], [], 1⟩ :=
  C3_activate_idempotent _ 4 "p" _ _ rfl rfl

/-! ### Association-list and hook-count lemmas for the registry -/

theorem aGet_append_single {β : Type} (l : List (String × β)) (k k' : String) (v : β) :
    aGet (l ++ [(k, v)]) k' =
      match aGet l k' with
      | some w => some w
      | none => if k = k' then some v else none := by
  induction l with
  | nil => rfl
  | cons kv rest ih =>
    by_cases h : kv.1 = k'
    · simp [aGet, h]
    · simp only [List.cons_append, aGet, h, if_false]
      exact ih

theorem aGet_append_single_ne {β : Type} (l : List (String × β)) {k k' : String} (v : β)
    (h : k ≠ k') : aGet (l ++ [(k, v)]) k' = aGet l k' := by
  rw [aGet_append_single]
  cases hl : aGet l k' with
  | some w => rfl
  | none => simp [h]

theorem aGet_mem {β : Type} {l : List (String × β)} {k : String} {v : β}
    (h : aGet l k = some v) : (k, v) ∈ l := by
  induction l with
  | nil => exact absurd h (by simp [aGet])
  | cons kv rest ih =>
    unfold aGet at h
    by_cases hk : kv.1 = k
    · rw [if_pos hk] at h
      have : kv = (k, v) := by
        cases kv
        simp only [Option.some.injEq] at h
        simp_all
      simp [this]
    · rw [if_neg hk] at h
      exact List.mem_cons_of_mem _ (ih h)

/-- Number of hook-table entries owned by plugin `A`. -/
def countOwned (A : String) (t : List (String × List RegEntry)) : Nat :=
  (t.map (fun kv => (kv.2.filter (fun e => e.plugin = A)).length)).sum

theorem countOwned_tableSet (A : String) (t : List (String × List RegEntry))
    (hook : String) (l : List RegEntry) :
    countOwned A (tableSet t hook l) =
      countOwned A t + (l.filter (fun e => e.plugin = A)).length -
        (((aGet t hook).getD []).filter (fun e => e.plugin = A)).length := by
  induction t with
  | nil => simp [tableSet, countOwned, aGet]
  | cons kv rest ih =>
    by_cases h : kv.1 = hook
    · simp [tableSet, h, countOwned, aGet]
      omega
    · simp only [tableSet, h, if_false, countOwned, List.map_cons, List.sum_cons, aGet]
      simp only [countOwned] at ih
      rw [ih]
      have hle : (((aGet rest hook).getD []).filter (fun e => e.plugin = A)).length ≤
          (rest.map (fun kv => (kv.2.filter (fun e => e.plugin = A)).length)).sum := by
        cases hg : aGet rest hook with
        | none => simp
        | some w =>
          have hmem : (hook, w) ∈ rest := aGet_mem hg
          have : (w.filter (fun e => e.plugin = A)).length ∈
              rest.map (fun kv => (kv.2.filter (fun e => e.plugin = A)).length) :=
            List.mem_map.mpr ⟨(hook, w), hmem, rfl⟩
          simpa using List.single_le_sum (by intro x _; omega) _ this
      omega

theorem perm_insertDescR (e : RegEntry) (l : List RegEntry) :
    (insertDescR e l).Perm (e :: l) := by
  induction l with
  | nil => exact List.Perm.refl _
  | cons x xs ih =>
    by_cases h : x.priority ≤ e.priority
    · simp [insertDescR, h]
    · simp only [insertDescR, h, if_false]
      exact (ih.cons x).trans (List.Perm.swap e x xs)

theorem perm_sortDescR (l : List RegEntry) : (sortDescR l).Perm l := by
  induction l with
  | nil => exact List.Perm.refl _
  | cons x xs ih => exact (perm_insertDescR x (sortDescR xs)).trans (ih.cons x)

theorem filter_length_sortDescR (l : List RegEntry) (p : RegEntry → Bool) :
    ((sortDescR l).filter p).length = (l.filter p).length := by
  have := (perm_sortDescR l).filter p
  exact this.length_eq

theorem countOwned_regHookPush (A : String) (t : List (String × List RegEntry))
    (hook : String) (e : RegEntry) :
    countOwned A (regHookPush t hook e) =
      countOwned A t + (if e.plugin = A then 1 else 0) := by
  unfold regHookPush
  rw [countOwned_tableSet]
  have hle : (((aGet t hook).getD []).filter (fun x => x.plugin = A)).length ≤
      countOwned A t := by
    cases hg : aGet t hook with
    | none => simp
    | some w =>
      have hmem : (hook, w) ∈ t := aGet_mem hg
      have : (w.filter (fun x => x.plugin = A)).length ∈
          t.map (fun kv => (kv.2.filter (fun x => x.plugin = A)).length) :=
        List.mem_map.mpr ⟨(hook, w), hmem, rfl⟩
      simpa [countOwned] using List.single_le_sum (by intro x _; omega) _ this
  rw [List.filter_append]
  by_cases he : e.plugin = A <;> simp [he] <;> omega

theorem countOwned_regHookPushSort (A : String) (t : List (String × List RegEntry))
    (hook : String) (e : RegEntry) :
    countOwned A (regHookPushSort t hook e) =
      countOwned A t + (if e.plugin = A then 1 else 0) := by
  unfold regHookPushSort
  rw [countOwned_tableSet, filter_length_sortDescR]
  have hle : (((aGet t hook).getD []).filter (fun x => x.plugin = A)).length ≤
      countOwned A t := by
    cases hg : aGet t hook with
    | none => simp
    | some w =>
      have hmem : (hook, w) ∈ t := aGet_mem hg
      have : (w.filter (fun x => x.plugin = A)).length ∈
          t.map (fun kv => (kv.2.filter (fun x => x.plugin = A)).length) :=
        List.mem_map.mpr ⟨(hook, w), hmem, rfl⟩
      simpa [countOwned] using List.single_le_sum (by intro x _; omega) _ this
  rw [List.filter_append]
  by_cases he : e.plugin = A <;> simp [he] <;> omega

theorem countOwned_applyInitRegisters (A n : String) (regs : List (String × Int))
    (t : List (String × List RegEntry)) :
    countOwned A (applyInitRegisters n regs t) =
      countOwned A t + (if n = A then regs.length else 0) := by
  induction regs generalizing t with
  | nil => simp [applyInitRegisters]
  | cons r rest ih =>
    unfold applyInitRegisters at ih ⊢
    rw [List.foldl_cons, ih, countOwned_regHookPush]
    by_cases h : n = A <;> simp [h] <;> omega

theorem countOwned_registerPluginHooks (A n : String) (hooks : List (String × Int))
    (t : List (String × List RegEntry)) :
    countOwned A (registerPluginHooks n hooks t) =
      countOwned A t + (if n = A then hooks.length else 0) := by
  induction hooks generalizing t with
  | nil => simp [registerPluginHooks]
  | cons r rest ih =>
    unfold registerPluginHooks at ih ⊢
    rw [List.foldl_cons, ih, countOwned_regHookPushSort]
    by_cases h : n = A <;> simp [h] <;> omega

/-! ### Case analysis of `finishActivation` -/

theorem finishActivation_err {n : String} {pd : PluginDef} {s1 : RegState} {m : String}
    {s' : RegState} (h : finishActivation n pd s1 = .err m s') :
    s'.activePlugins = s1.activePlugins ∧
      (s'.log = s1.log ∨ s'.log = s1.log ++ [Event.initInvoked n]) ∧
      (∀ A, countOwned A s'.hooksTable = countOwned A s1.hooksTable ∨
        (pd.inst.hasInitialize = true ∧ pd.inst.initThrows = true ∧
          countOwned A s'.hooksTable =
            countOwned A s1.hooksTable + (if n = A then pd.inst.initRegisters.length else 0))) := by
  unfold finishActivation at h
  by_cases hml : pd.moduleLoads = false
  · rw [hml] at h
    simp only [Bool.not_false, if_true, ActResult.err.injEq] at h
    rw [← h.2]
    exact ⟨rfl, Or.inl rfl, fun A => Or.inl rfl⟩
  · rw [Bool.not_eq_false] at hml
    rw [hml] at h
    simp only [Bool.not_true, Bool.false_eq_true, if_false] at h
    by_cases hio : pd.instanceOk = false
    · rw [hio] at h
      simp only [Bool.not_false, if_true, ActResult.err.injEq] at h
      rw [← h.2]
      exact ⟨rfl, Or.inl rfl, fun A => Or.inl rfl⟩
    · rw [Bool.not_eq_false] at hio
      rw [hio] at h
      simp only [Bool.not_true, Bool.false_eq_true, if_false] at h
      by_cases hit : (pd.inst.hasInitialize && pd.inst.initThrows) = true
      · rw [hit] at h
        simp only [if_true, ActResult.err.injEq] at h
        rw [Bool.and_eq_true] at hit
        have hs' : s' = { s1 with
            log := s1.log ++ [Event.initInvoked n],
            hooksTable := applyInitRegisters n pd.inst.initRegisters s1.hooksTable } := by
          rw [← h.2, hit.1]
          simp
        rw [hs']
        refine ⟨rfl, Or.inr rfl, fun A => Or.inr ⟨hit.1, hit.2, ?_⟩⟩
        exact countOwned_applyInitRegisters A n pd.inst.initRegisters s1.hooksTable
      · rw [Bool.not_eq_true] at hit
        rw [hit] at h
        simp only [Bool.false_eq_true, if_false] at h
        exact absurd h (by simp)

theorem finishActivation_ok {n : String} {pd : PluginDef} {s1 : RegState}
    {s' : RegState} (h : finishActivation n pd s1 = .ok s') :
    pd.moduleLoads = true ∧ pd.instanceOk = true ∧
      (pd.inst.hasInitialize && pd.inst.initThrows) = false ∧
      (∃ c, s'.activePlugins = s1.activePlugins ++ [(n, c)]) ∧
      s'.log = s1.log ++
        (if pd.inst.hasInitialize then [Event.initInvoked n] else []) ++
        [Event.hooksRegistered n, Event.activated n] ∧
      (∀ A, countOwned A s'.hooksTable = countOwned A s1.hooksTable +
        (if n = A then
          (if pd.inst.hasInitialize then pd.inst.initRegisters.length else 0) +
            pd.inst.hooks.length
         else 0)) := by
  unfold finishActivation at h
  by_cases hml : pd.moduleLoads = false
  · rw [hml] at h
    exact absurd h (by simp)
  · rw [Bool.not_eq_false] at hml
    rw [hml] at h
    simp only [Bool.not_true, Bool.false_eq_true, if_false] at h
    by_cases hio : pd.instanceOk = false
    · rw [hio] at h
      exact absurd h (by simp)
    · rw [Bool.not_eq_false] at hio
      rw [hio] at h
      simp only [Bool.not_true, Bool.false_eq_true, if_false] at h
      by_cases hit : (pd.inst.hasInitialize && pd.inst.initThrows) = true
      · rw [hit] at h
        exact absurd h (by simp)
      · rw [Bool.not_eq_true] at hit
        rw [hit] at h
        simp only [Bool.false_eq_true, if_false, ActResult.ok.injEq] at h
        by_cases hhi : pd.inst.hasInitialize = true
        · have hs' : s' = { s1 with
              log := (s1.log ++ [Event.initInvoked n]) ++
                [Event.hooksRegistered n, Event.activated n],
              hooksTable := registerPluginHooks n pd.inst.hooks
                (applyInitRegisters n pd.inst.initRegisters s1.hooksTable),
              activePlugins := s1.activePlugins ++ [(n, s1.clock)],
              clock := s1.clock + 1 } := by
            rw [← h, hhi]
            simp
          rw [hs']
          refine ⟨hml, hio, hit, ⟨s1.clock, rfl⟩, by simp [hhi], fun A => ?_⟩
          simp only
          rw [countOwned_registerPluginHooks, countOwned_applyInitRegisters]
          by_cases hna : n = A
          · simp [hna, hhi]
            omega
          · simp [hna, hhi]
        · rw [Bool.not_eq_true] at hhi
          have hs' : s' = { s1 with
              log := s1.log ++ [Event.hooksRegistered n, Event.activated n],
              hooksTable := registerPluginHooks n pd.inst.hooks s1.hooksTable,
              activePlugins := s1.activePlugins ++ [(n, s1.clock)],
              clock := s1.clock + 1 } := by
            rw [← h, hhi]
            simp
          rw [hs']
          refine ⟨hml, hio, hit, ⟨s1.clock, rfl⟩, by simp [hhi], fun A => ?_⟩
          simp only
          rw [countOwned_registerPluginHooks]
          by_cases hna : n = A
          · simp [hna, hhi]
          · simp [hna, hhi]

/-! ### Run invariants of the activation recursion -/

theorem aGet_append_isSome {β : Type} {l : List (String × β)} {n : String}
    (x : String × β) (h : (aGet l n).isSome = true) :
    (aGet (l ++ [x]) n).isSome = true := by
  rw [aGet_append_single]
  cases hg : aGet l n with
  | none => rw [hg] at h; simp at h
  | some w => simp

theorem aGet_append_self_isSome {β : Type} (l : List (String × β)) (k : String) (v : β) :
    (aGet (l ++ [(k, v)]) k).isSome = true := by
  rw [aGet_append_single]
  cases hg : aGet l k with
  | none => simp
  | some w => simp

theorem aGet_append_single_isSome {β : Type} {l : List (String × β)} {k n : String}
    {v : β} (h : (aGet (l ++ [(k, v)]) n).isSome = true) :
    (aGet l n).isSome = true ∨ k = n := by
  rw [aGet_append_single] at h
  cases hg : aGet l n with
  | some w => exact Or.inl (by simp)
  | none =>
    rw [hg] at h
    by_cases hk : k = n
    · exact Or.inr hk
    · rw [if_neg hk] at h; simp at h

theorem checkDeps_log_extend (env : Env) (fuel : Nat)
    (hA : ∀ name s, ∃ t, (stateOf (activateGo env fuel name s)).log = s.log ++ t) :
    ∀ ds s, ∃ t, (stateOf (checkDepsGo env fuel ds s)).log = s.log ++ t := by
  intro ds
  induction ds with
  | nil => intro s; exact ⟨[], by simp [checkDepsGo_nil, checkDepsGo_cons, stateOf]⟩
  | cons d rest ih =>
    intro s
    cases h1 : (aGet env d).isNone with
    | true => exact ⟨[], by simp [checkDepsGo_nil, checkDepsGo_cons, h1, stateOf]⟩
    | false =>
      cases h2 : (aGet s.activePlugins d).isSome with
      | true =>
        obtain ⟨t, ht⟩ := ih s
        exact ⟨t, by simp only [checkDepsGo_nil, checkDepsGo_cons, h1, h2]; simpa using ht⟩
      | false =>
        cases hact : activateGo env fuel d s with
        | err m s1 =>
          obtain ⟨t, ht⟩ := hA d s
          rw [hact] at ht
          simp only [stateOf] at ht
          exact ⟨t, by simp only [checkDepsGo_nil, checkDepsGo_cons, h1, h2, hact]; simpa [stateOf] using ht⟩
        | ok s1 =>
          obtain ⟨t1, ht1⟩ := hA d s
          rw [hact] at ht1
          simp only [stateOf] at ht1
          obtain ⟨t2, ht2⟩ := ih s1
          refine ⟨t1 ++ t2, ?_⟩
          simp only [checkDepsGo_nil, checkDepsGo_cons, h1, h2, hact]
          simp only [Bool.false_eq_true, if_false]
          rw [ht2, ht1, List.append_assoc]

theorem activate_log_extend (env : Env) : ∀ fuel name s,
    ∃ t, (stateOf (activateGo env fuel name s)).log = s.log ++ t := by
  intro fuel
  induction fuel with
  | zero => intro name s; exact ⟨[], by simp [activateGo, checkDepsGo_eq, stateOf]⟩
  | succ f ihf =>
    have hC := checkDeps_log_extend env f ihf
    intro name s
    cases hm : aGet env name with
    | none => exact ⟨[], by simp [activateGo, checkDepsGo_eq, hm, stateOf]⟩
    | some pd =>
      cases ha : (aGet s.activePlugins name).isSome with
      | true => exact ⟨[], by simp [activateGo, checkDepsGo_eq, hm, ha, stateOf]⟩
      | false =>
        cases hcd : checkDepsGo env f pd.deps s with
        | err m s1 =>
          obtain ⟨t, ht⟩ := hC pd.deps s
          rw [hcd] at ht
          simp only [stateOf] at ht
          exact ⟨t, by simp only [activateGo, checkDepsGo_eq, hm, ha, hcd]; simpa [stateOf] using ht⟩
        | ok s1 =>
          obtain ⟨t1, ht1⟩ := hC pd.deps s
          rw [hcd] at ht1
          simp only [stateOf] at ht1
          have hred : activateGo env (f + 1) name s = finishActivation name pd s1 := by
            simp only [activateGo, checkDepsGo_eq, hm, ha, hcd]
            simp
          cases hfin : finishActivation name pd s1 with
          | err m s' =>
            obtain ⟨_, hlog, _⟩ := finishActivation_err hfin
            rcases hlog with h | h
            · exact ⟨t1, by rw [hred, hfin]; simp only [stateOf]; rw [h, ht1]⟩
            · exact ⟨t1 ++ [Event.initInvoked name], by
                rw [hred, hfin]; simp only [stateOf]
                rw [h, ht1, List.append_assoc]⟩
          | ok s' =>
            obtain ⟨_, _, _, _, hlog, _⟩ := finishActivation_ok hfin
            refine ⟨t1 ++ ((if pd.inst.hasInitialize then [Event.initInvoked name] else []) ++
              [Event.hooksRegistered name, Event.activated name]), ?_⟩
            rw [hred, hfin]
            simp only [stateOf]
            rw [hlog, ht1]
            simp [List.append_assoc]

theorem checkDeps_active_mono (env : Env) (fuel : Nat)
    (hA : ∀ name s n, (aGet s.activePlugins n).isSome = true →
      (aGet (stateOf (activateGo env fuel name s)).activePlugins n).isSome = true) :
    ∀ ds s n, (aGet s.activePlugins n).isSome = true →
      (aGet (stateOf (checkDepsGo env fuel ds s)).activePlugins n).isSome = true := by
  intro ds
  induction ds with
  | nil => intro s n h; simpa [checkDepsGo_nil, checkDepsGo_cons, stateOf] using h
  | cons d rest ih =>
    intro s n h
    cases h1 : (aGet env d).isNone with
    | true => simpa [checkDepsGo_nil, checkDepsGo_cons, h1, stateOf] using h
    | false =>
      cases h2 : (aGet s.activePlugins d).isSome with
      | true => simp only [checkDepsGo_nil, checkDepsGo_cons, h1, h2]; simpa using ih s n h
      | false =>
        cases hact : activateGo env fuel d s with
        | err m s1 =>
          have := hA d s n h
          rw [hact] at this
          simp only [checkDepsGo_nil, checkDepsGo_cons, h1, h2, hact]
          simpa [stateOf] using this
        | ok s1 =>
          have h1' := hA d s n h
          rw [hact] at h1'
          simp only [stateOf] at h1'
          simp only [checkDepsGo_nil, checkDepsGo_cons, h1, h2, hact]
          simp only [Bool.false_eq_true, if_false]
          exact ih s1 n h1'

theorem activate_active_mono (env : Env) : ∀ fuel name s n,
    (aGet s.activePlugins n).isSome = true →
    (aGet (stateOf (activateGo env fuel name s)).activePlugins n).isSome = true := by
  intro fuel
  induction fuel with
  | zero => intro name s n h; simpa [activateGo, stateOf] using h
  | succ f ihf =>
    have hC := checkDeps_active_mono env f ihf
    intro name s n h
    cases hm : aGet env name with
    | none => simpa [activateGo, hm, stateOf] using h
    | some pd =>
      cases ha : (aGet s.activePlugins name).isSome with
      | true => simpa [activateGo, hm, ha, stateOf] using h
      | false =>
        cases hcd : checkDepsGo env f pd.deps s with
        | err m s1 =>
          have := hC pd.deps s n h
          rw [hcd] at this
          simp only [activateGo, checkDepsGo_eq, hm, ha, hcd]
          simpa [stateOf] using this
        | ok s1 =>
          have h1' := hC pd.deps s n h
          rw [hcd] at h1'
          simp only [stateOf] at h1'
          have hred : activateGo env (f + 1) name s = finishActivation name pd s1 := by
            simp only [activateGo, checkDepsGo_eq, hm, ha, hcd]
            simp
          rw [hred]
          cases hfin : finishActivation name pd s1 with
          | err m s' =>
            obtain ⟨hact', _, _⟩ := finishActivation_err hfin
            simp only [stateOf]
            rw [hact']
            exact h1'
          | ok s' =>
            obtain ⟨_, _, _, ⟨c, hact'⟩, _, _⟩ := finishActivation_ok hfin
            simp only [stateOf]
            rw [hact']
            exact aGet_append_isSome _ h1'

theorem activate_ok_self_active (env : Env) (fuel : Nat) (name : String)
    {s s' : RegState} (h : activateGo env fuel name s = .ok s') :
    (aGet s'.activePlugins name).isSome = true := by
  cases fuel with
  | zero => exact absurd h (by simp [activateGo, checkDepsGo_eq])
  | succ f =>
    cases hm : aGet env name with
    | none =>
      rw [show activateGo env (f + 1) name s =
        .err ("Plugin not found: " ++ name) s by simp [activateGo, checkDepsGo_eq, hm]] at h
      exact absurd h (by simp)
    | some pd =>
      cases ha : (aGet s.activePlugins name).isSome with
      | true =>
        rw [show activateGo env (f + 1) name s = .ok s by simp [activateGo, checkDepsGo_eq, hm, ha]] at h
        cases h
        exact ha
      | false =>
        cases hcd : checkDepsGo env f pd.deps s with
        | err m s1 =>
          rw [show activateGo env (f + 1) name s =
            .err ("Failed to activate plugin " ++ name ++ ": " ++ m) s1 by
              simp [activateGo, checkDepsGo_eq, hm, ha, hcd]] at h
          exact absurd h (by simp)
        | ok s1 =>
          have hred : activateGo env (f + 1) name s = finishActivation name pd s1 := by
            simp only [activateGo, checkDepsGo_eq, hm, ha, hcd]
            simp
          rw [hred] at h
          obtain ⟨_, _, _, ⟨c, hact'⟩, _, _⟩ := finishActivation_ok h
          rw [hact']
          exact aGet_append_self_isSome _ _ _

/-- A plugin that became active during a dependency-check run had its
`activated` event logged (coupling of the active map and the log),
assuming the same property for the nested activations. -/
theorem checkDeps_activated (env : Env) (fuel : Nat)
    (hA : ∀ name s n, (aGet (stateOf (activateGo env fuel name s)).activePlugins n).isSome
        = true →
      (aGet s.activePlugins n).isSome = true ∨
        Event.activated n ∈ (stateOf (activateGo env fuel name s)).log) :
    ∀ ds s n, (aGet (stateOf (checkDepsGo env fuel ds s)).activePlugins n).isSome = true →
      (aGet s.activePlugins n).isSome = true ∨
        Event.activated n ∈ (stateOf (checkDepsGo env fuel ds s)).log := by
  intro ds
  induction ds with
  | nil => intro s n h; exact Or.inl (by simpa [checkDepsGo_nil, checkDepsGo_cons, stateOf] using h)
  | cons d rest ih =>
    intro s n h
    cases h1 : (aGet env d).isNone with
    | true =>
      rw [show checkDepsGo env fuel (d :: rest) s =
        .err ("Missing dependency: " ++ d) s by simp [checkDepsGo_nil, checkDepsGo_cons, h1]] at h ⊢
      exact Or.inl (by simpa [stateOf] using h)
    | false =>
      cases h2 : (aGet s.activePlugins d).isSome with
      | true =>
        rw [show checkDepsGo env fuel (d :: rest) s = checkDepsGo env fuel rest s by
          simp [checkDepsGo_nil, checkDepsGo_cons, h1, h2]] at h ⊢
        exact ih s n h
      | false =>
        cases hact : activateGo env fuel d s with
        | err m s1 =>
          rw [show checkDepsGo env fuel (d :: rest) s = .err m s1 by
            simp [checkDepsGo_nil, checkDepsGo_cons, h1, h2, hact]] at h ⊢
          have := hA d s n (by rw [hact]; simpa [stateOf] using h)
          rw [hact] at this
          simpa [stateOf] using this
        | ok s1 =>
          rw [show checkDepsGo env fuel (d :: rest) s = checkDepsGo env fuel rest s1 by
            simp [checkDepsGo_nil, checkDepsGo_cons, h1, h2, hact]] at h ⊢
          rcases ih s1 n h with h' | h'
          · have := hA d s n (by rw [hact]; simpa [stateOf] using h')
            rw [hact] at this
            rcases this with h'' | h''
            · exact Or.inl h''
            · -- the event is in s1.log, which is a prefix of the final log
              right
              obtain ⟨t, ht⟩ :=
                checkDeps_log_extend env fuel (activate_log_extend env fuel) rest s1
              rw [ht]
              exact List.mem_append_left t (by simpa [stateOf] using h'')
          · exact Or.inr h'

theorem activate_activated (env : Env) : ∀ fuel name s n,
    (aGet (stateOf (activateGo env fuel name s)).activePlugins n).isSome = true →
    (aGet s.activePlugins n).isSome = true ∨
      Event.activated n ∈ (stateOf (activateGo env fuel name s)).log := by
  intro fuel
  induction fuel with
  | zero => intro name s n h; exact Or.inl (by simpa [activateGo, stateOf] using h)
  | succ f ihf =>
    have hC := checkDeps_activated env f ihf
    intro name s n h
    cases hm : aGet env name with
    | none =>
      rw [show activateGo env (f + 1) name s = .err ("Plugin not found: " ++ name) s by
        simp [activateGo, checkDepsGo_eq, hm]] at h ⊢
      exact Or.inl (by simpa [stateOf] using h)
    | some pd =>
      cases ha : (aGet s.activePlugins name).isSome with
      | true =>
        rw [show activateGo env (f + 1) name s = .ok s by simp [activateGo, checkDepsGo_eq, hm, ha]] at h ⊢
        exact Or.inl (by simpa [stateOf] using h)
      | false =>
        cases hcd : checkDepsGo env f pd.deps s with
        | err m s1 =>
          rw [show activateGo env (f + 1) name s =
            .err ("Failed to activate plugin " ++ name ++ ": " ++ m) s1 by
              simp [activateGo, checkDepsGo_eq, hm, ha, hcd]] at h ⊢
          have := hC pd.deps s n (by rw [hcd]; simpa [stateOf] using h)
          rw [hcd] at this
          simpa [stateOf] using this
        | ok s1 =>
          have hred : activateGo env (f + 1) name s = finishActivation name pd s1 := by
            simp only [activateGo, checkDepsGo_eq, hm, ha, hcd]
            simp
          rw [hred] at h ⊢
          cases hfin : finishActivation name pd s1 with
          | err m s' =>
            obtain ⟨hact', hlog, _⟩ := finishActivation_err hfin
            rw [hfin] at h
            simp only [stateOf] at h ⊢
            rw [hact'] at h
            have := hC pd.deps s n (by rw [hcd]; simpa [stateOf] using h)
            rw [hcd] at this
            simp only [stateOf] at this
            rcases this with h' | h'
            · exact Or.inl h'
            · right
              rcases hlog with hl | hl <;> rw [hl]
              · exact h'
              · exact List.mem_append_left _ h'
          | ok s' =>
            obtain ⟨_, _, _, ⟨c, hact'⟩, hlog, _⟩ := finishActivation_ok hfin
            rw [hfin] at h
            simp only [stateOf] at h ⊢
            rw [hact'] at h
            rcases aGet_append_single_isSome h with h' | hn
            · have := hC pd.deps s n (by rw [hcd]; simpa [stateOf] using h')
              rw [hcd] at this
              simp only [stateOf] at this
              rcases this with h'' | h''
              · exact Or.inl h''
              · right
                rw [hlog]
                exact List.mem_append_left _ (List.mem_append_left _ h'')
            · right
              rw [hlog, hn]
              simp

/-- A successful dependency check requires every listed dependency to
have a manifest. -/
theorem checkDeps_ok_present (env : Env) (fuel : Nat) :
    ∀ ds (s s1 : RegState), checkDepsGo env fuel ds s = .ok s1 →
      ∀ d ∈ ds, (aGet env d).isSome = true := by
  intro ds
  induction ds with
  | nil => intro s s1 _ d hd; exact absurd hd (List.not_mem_nil d)
  | cons d0 rest ih =>
    intro s s1 h d hd
    cases h1 : (aGet env d0).isNone with
    | true =>
      rw [show checkDepsGo env fuel (d0 :: rest) s =
        .err ("Missing dependency: " ++ d0) s by simp [checkDepsGo_nil, checkDepsGo_cons, h1]] at h
      exact absurd h (by simp)
    | false =>
      have hd0 : (aGet env d0).isSome = true := by
        cases hg : aGet env d0
        · rw [hg] at h1; simp at h1
        · simp
      rcases List.mem_cons.mp hd with rfl | hmem
      · exact hd0
      · cases h2 : (aGet s.activePlugins d0).isSome with
        | true =>
          rw [show checkDepsGo env fuel (d0 :: rest) s = checkDepsGo env fuel rest s by
            simp [checkDepsGo_nil, checkDepsGo_cons, h1, h2]] at h
          exact ih s s1 h d hmem
        | false =>
          cases hact : activateGo env fuel d0 s with
          | err m s2 =>
            rw [show checkDepsGo env fuel (d0 :: rest) s = .err m s2 by
              simp [checkDepsGo_nil, checkDepsGo_cons, h1, h2, hact]] at h
            exact absurd h (by simp)
          | ok s2 =>
            rw [show checkDepsGo env fuel (d0 :: rest) s = checkDepsGo env fuel rest s2 by
              simp [checkDepsGo_nil, checkDepsGo_cons, h1, h2, hact]] at h
            exact ih s2 s1 h d hmem

/-- After a successful dependency check, every listed dependency is active. -/
theorem checkDeps_ok_active (env : Env) (fuel : Nat) :
    ∀ ds (s s1 : RegState), checkDepsGo env fuel ds s = .ok s1 →
      ∀ d ∈ ds, (aGet s1.activePlugins d).isSome = true := by
  intro ds
  induction ds with
  | nil => intro s s1 _ d hd; exact absurd hd (List.not_mem_nil d)
  | cons d0 rest ih =>
    intro s s1 h d hd
    cases h1 : (aGet env d0).isNone with
    | true =>
      rw [show checkDepsGo env fuel (d0 :: rest) s =
        .err ("Missing dependency: " ++ d0) s by simp [checkDepsGo_nil, checkDepsGo_cons, h1]] at h
      exact absurd h (by simp)
    | false =>
      cases h2 : (aGet s.activePlugins d0).isSome with
      | true =>
        rw [show checkDepsGo env fuel (d0 :: rest) s = checkDepsGo env fuel rest s by
          simp [checkDepsGo_nil, checkDepsGo_cons, h1, h2]] at h
        rcases List.mem_cons.mp hd with rfl | hmem
        · have := checkDeps_active_mono env fuel (activate_active_mono env fuel) rest s d h2
          rw [h] at this
          simpa [stateOf] using this
        · exact ih s s1 h d hmem
      | false =>
        cases hact : activateGo env fuel d0 s with
        | err m s2 =>
          rw [show checkDepsGo env fuel (d0 :: rest) s = .err m s2 by
            simp [checkDepsGo_nil, checkDepsGo_cons, h1, h2, hact]] at h
          exact absurd h (by simp)
        | ok s2 =>
          rw [show checkDepsGo env fuel (d0 :: rest) s = checkDepsGo env fuel rest s2 by
            simp [checkDepsGo_nil, checkDepsGo_cons, h1, h2, hact]] at h
          rcases List.mem_cons.mp hd with rfl | hmem
          · have hd0 : (aGet s2.activePlugins d).isSome = true :=
              activate_ok_self_active env fuel d hact
            have := checkDeps_active_mono env fuel (activate_active_mono env fuel) rest s2 d hd0
            rw [h] at this
            simpa [stateOf] using this
          · exact ih s2 s1 h d hmem

/-- With every dependency listed before the missing one already present
and active, `checkDependencies` reaches the missing one and throws the
missing-dependency error, leaving the state unchanged. -/
theorem checkDeps_missing_after_active (env : Env) (fuel : Nat) (B : String)
    (post : List String) (s : RegState) (hBnone : aGet env B = none) :
    ∀ pre, (∀ d ∈ pre, (aGet env d).isSome = true ∧
        (aGet s.activePlugins d).isSome = true) →
      checkDepsGo env fuel (pre ++ B :: post) s = .err ("Missing dependency: " ++ B) s := by
  intro pre
  induction pre with
  | nil =>
    intro _
    rw [List.nil_append, checkDepsGo_cons]
    simp [hBnone]
  | cons d pre' ih =>
    intro hpre
    obtain ⟨hd1, hd2⟩ := hpre d (List.mem_cons_self d pre')
    rw [List.cons_append, checkDepsGo_cons]
    have hd1' : (aGet env d).isNone = false := by
      cases hg : aGet env d
      · rw [hg] at hd1; simp at hd1
      · rfl
    rw [hd1']
    simp only [Bool.false_eq_true, if_false, hd2, if_true]
    exact ih (fun d' hd' => hpre d' (List.mem_cons_of_mem d hd'))

/-- C2 counterexample: plugin "a" lists dependencies ["c", "b"]; "b" has
no manifest, but "c" comes first and its module fails to load, so
`activatePlugin("a")` fails with the wrapped module-load error — not
with a missing-dependency error, contradicting the claim that a
manifest-less dependency always yields a missing-dependency error. -/
theorem C2_counterexample :
    activateGo [("a", ⟨["c", "b"], "1.0.0", true, "a/main.js", true, ⟨false, [], false, []⟩⟩),
        ("c", ⟨[], "1.0.0", false, "c/main.js", true, ⟨false, [], false, []⟩⟩)]
        10 "a" ⟨[], [], [], 0⟩ =
      .err ("Failed to activate plugin a: Failed to activate plugin c: " ++
        "Failed to load plugin module c/main.js: module error") ⟨[], [], [], 0⟩ ∧
    strContains ("Failed to activate plugin a: Failed to activate plugin c: " ++
      "Failed to load plugin module c/main.js: module error") "Missing dependency" = false ∧
    "b" ∈ (⟨["c", "b"], "1.0.0", true, "a/main.js", true,
      ⟨false, [], false, []⟩⟩ : PluginDef).deps ∧
    aGet [("a", (⟨["c", "b"], "1.0.0", true, "a/main.js", true,
        ⟨false, [], false, []⟩⟩ : PluginDef)),
      ("c", ⟨[], "1.0.0", false, "c/main.js", true, ⟨false, [], false, []⟩⟩)] "b" = none := by
  decide

/-- C2 (amended): for a plugin A (not yet active) whose manifest lists a
dependency B: (a) if B has no loaded manifest, every `activatePlugin(A)`
call fails; (b) the failure is the wrapped missing-dependency error
naming B when every dependency listed before B is present and already
active (an earlier dependency's own failure surfaces instead of the
missing-dependency error); (c) if B has a manifest and activation of A
succeeds, B is fully active afterwards and B's activation event was
logged before A's `initialize` was invoked. -/
theorem C2_dependency_activation (env : Env) (A B : String) (pdA : PluginDef) (s : RegState)
    (hA : aGet env A = some pdA)
    (hAin : (aGet s.activePlugins A).isSome = false) :
    (B ∈ pdA.deps → aGet env B = none →
      ∀ fuel, ∃ m s', activateGo env fuel A s = .err m s') ∧
    (∀ pre post fuel, pdA.deps = pre ++ B :: post → aGet env B = none →
      (∀ d ∈ pre, (aGet env d).isSome = true ∧ (aGet s.activePlugins d).isSome = true) →
      activateGo env (fuel + 1) A s =
        .err ("Failed to activate plugin " ++ A ++ ": " ++
          ("Missing dependency: " ++ B)) s) ∧
    (∀ fuel s', B ∈ pdA.deps → (aGet s.activePlugins B).isSome = false →
      pdA.inst.hasInitialize = true →
      activateGo env fuel A s = .ok s' →
      (aGet s'.activePlugins B).isSome = true ∧
        ∃ i j, i < j ∧ s'.log.get? i = some (.activated B) ∧
          s'.log.get? j = some (.initInvoked A)) := by
  refine ⟨?_, ?_, ?_⟩
  · intro hB hBnone fuel
    cases fuel with
    | zero => exact ⟨_, _, rfl⟩
    | succ f =>
      cases hcd : checkDepsGo env f pdA.deps s with
      | err m s1 =>
        exact ⟨"Failed to activate plugin " ++ A ++ ": " ++ m, s1,
          by simp [activateGo, checkDepsGo_eq, hA, hAin, hcd]⟩
      | ok s1 =>
        have := checkDeps_ok_present env f pdA.deps s s1 hcd B hB
        rw [hBnone] at this
        simp at this
  · intro pre post fuel hsplit hBnone hpre
    have hcd := checkDeps_missing_after_active env fuel B post s hBnone pre hpre
    rw [← hsplit] at hcd
    simp [activateGo, checkDepsGo_eq, hA, hAin, hcd]
  · intro fuel s' hB hBin hinit hok
    cases fuel with
    | zero => exact absurd hok (by simp [activateGo])
    | succ f =>
      cases hcd : checkDepsGo env f pdA.deps s with
      | err m s1 =>
        rw [show activateGo env (f + 1) A s =
          .err ("Failed to activate plugin " ++ A ++ ": " ++ m) s1 by
            simp [activateGo, checkDepsGo_eq, hA, hAin, hcd]] at hok
        exact absurd hok (by simp)
      | ok s1 =>
        rw [show activateGo env (f + 1) A s = finishActivation A pdA s1 by
          simp [activateGo, checkDepsGo_eq, hA, hAin, hcd]] at hok
        have hBact : (aGet s1.activePlugins B).isSome = true :=
          checkDeps_ok_active env f pdA.deps s s1 hcd B hB
        have hcoup := checkDeps_activated env f (activate_activated env f) pdA.deps s B
        rw [hcd] at hcoup
        simp only [stateOf] at hcoup
        rcases hcoup hBact with h' | hBlog
        · rw [h'] at hBin; simp at hBin
        · obtain ⟨hml, hio, hit, ⟨c, hact'⟩, hlog, _⟩ := finishActivation_ok hok
          constructor
          · rw [hact']; exact aGet_append_isSome _ hBact
          · obtain ⟨i, hilt, hi⟩ := List.mem_iff_getElem.mp hBlog
            have hlog' : s'.log = (s1.log ++ [Event.initInvoked A]) ++
                [Event.hooksRegistered A, Event.activated A] := by
              rw [hlog, hinit]
              simp
            refine ⟨i, s1.log.length, hilt, ?_, ?_⟩
            · rw [hlog', List.get?_eq_getElem?]
              rw [List.getElem?_append_left (by simp; omega)]
              rw [List.getElem?_append_left (by omega)]
              rw [List.getElem?_eq_getElem hilt, hi]
            · rw [hlog', List.get?_eq_getElem?]
              have hlen : s1.log.length < (s1.log ++ [Event.initInvoked A]).length := by
                simp
              rw [List.getElem?_append_left hlen]
              rw [List.getElem?_append_right (Nat.le_refl _)]
              simp

/-- C2 witness: with "b" the first (manifest-less) dependency the error
is the wrapped missing-dependency error; and with "b" loadable,
activating "a" activates "b" first, its `activated` event logged before
"a"'s `initialize` event. -/
theorem C2_dependency_activation_witness :
    (activateGo [("a", ⟨["b"], "1.0.0", true, "a/main.js", true, ⟨true, [], false, []⟩⟩)]
        1 "a" ⟨[], [], [], 0⟩ =
      .err ("Failed to activate plugin " ++ "a" ++ ": " ++ ("Missing dependency: " ++ "b"))
        ⟨[], [], [], 0⟩) ∧
    ((aGet (⟨[("b", 0), ("a", 1)], [("ui:render", [⟨"b", 5⟩])],
        [.initInvoked "b", .hooksRegistered "b", .activated "b",
         .initInvoked "a", .hooksRegistered "a", .activated "a"], 2⟩ :
          RegState).activePlugins "b").isSome = true ∧
      ∃ i j, i < j ∧
        (⟨[("b", 0), ("a", 1)], [("ui:render", [⟨"b", 5⟩])],
          [.initInvoked "b", .hooksRegistered "b", .activated "b",
           .initInvoked "a", .hooksRegistered "a", .activated "a"], 2⟩ :
            RegState).log.get? i = some (.activated "b") ∧
        (⟨[("b", 0), ("a", 1)], [("ui:render", [⟨"b", 5⟩])],
          [.initInvoked "b", .hooksRegistered "b", .activated "b",
           .initInvoked "a", .hooksRegistered "a", .activated "a"], 2⟩ :
            RegState).log.get? j = some (.initInvoked "a")) := by
  constructor
  · exact (C2_dependency_activation
      [("a", ⟨["b"], "1.0.0", true, "a/main.js", true, ⟨true, [], false, []⟩⟩)]
      "a" "b" ⟨["b"], "1.0.0", true, "a/main.js", true, ⟨true, [], false, []⟩⟩
      ⟨[], [], [], 0⟩ rfl rfl).2.1 [] [] 0 rfl rfl (by simp)
  · exact (C2_dependency_activation
      [("a", ⟨["b"], "1.0.0", true, "a/main.js", true, ⟨true, [], false, []⟩⟩),
       ("b", ⟨[], "1.0.0", true, "b/main.js", true, ⟨true, [], false, [("ui:render", 5)]⟩⟩)]
      "a" "b" ⟨["b"], "1.0.0", true, "a/main.js", true, ⟨true, [], false, []⟩⟩
      ⟨[], [], [], 0⟩ rfl rfl).2.2 3 _ (by decide) rfl rfl (by decide)

/-- When no plugin's dependency list mentions `A`, a dependency-check run
neither activates `A` nor adds hook entries owned by `A`, given the same
for the nested activations. -/
theorem checkDeps_preserves (env : Env) (A : String) (fuel : Nat)
    (hAP : ∀ d s r, d ≠ A → activateGo env fuel d s = r →
      aGet s.activePlugins A = none →
      aGet (stateOf r).activePlugins A = none ∧
        countOwned A (stateOf r).hooksTable = countOwned A s.hooksTable) :
    ∀ ds s r, A ∉ ds → checkDepsGo env fuel ds s = r →
      aGet s.activePlugins A = none →
      aGet (stateOf r).activePlugins A = none ∧
        countOwned A (stateOf r).hooksTable = countOwned A s.hooksTable := by
  intro ds
  induction ds with
  | nil =>
    intro s r _ h hA0
    rw [checkDepsGo_nil] at h
    rw [← h]
    exact ⟨hA0, rfl⟩
  | cons d rest ih =>
    intro s r hnotin h hA0
    have hdA : d ≠ A := fun he => hnotin (he ▸ List.mem_cons_self d rest)
    have hrest : A ∉ rest := fun hm => hnotin (List.mem_cons_of_mem d hm)
    rw [checkDepsGo_cons] at h
    cases h1 : (aGet env d).isNone with
    | true =>
      rw [h1] at h
      simp only [if_true] at h
      rw [← h]
      exact ⟨hA0, rfl⟩
    | false =>
      rw [h1] at h
      simp only [Bool.false_eq_true, if_false] at h
      cases h2 : (aGet s.activePlugins d).isSome with
      | true =>
        rw [h2] at h
        simp only [if_true] at h
        exact ih s r hrest h hA0
      | false =>
        rw [h2] at h
        simp only [Bool.false_eq_true, if_false] at h
        cases hact : activateGo env fuel d s with
        | err m s1 =>
          rw [hact] at h
          obtain ⟨ha1, hc1⟩ := hAP d s _ hdA hact hA0
          simp only [stateOf] at ha1 hc1
          rw [← h]
          exact ⟨ha1, hc1⟩
        | ok s1 =>
          rw [hact] at h
          obtain ⟨ha1, hc1⟩ := hAP d s _ hdA hact hA0
          simp only [stateOf] at ha1 hc1
          obtain ⟨ha2, hc2⟩ := ih s1 r hrest h ha1
          exact ⟨ha2, by rw [hc2, hc1]⟩

/-- When no plugin's dependency list mentions `A`, activating any other
plugin neither activates `A` nor adds hook entries owned by `A`. -/
theorem activate_preserves (env : Env) (A : String)
    (hno : ∀ e ∈ env, A ∉ e.2.deps) :
    ∀ fuel d s r, d ≠ A → activateGo env fuel d s = r →
      aGet s.activePlugins A = none →
      aGet (stateOf r).activePlugins A = none ∧
        countOwned A (stateOf r).hooksTable = countOwned A s.hooksTable := by
  intro fuel
  induction fuel with
  | zero =>
    intro d s r _ h hA0
    rw [show activateGo env 0 d s = .err "Maximum call stack size exceeded" s from rfl] at h
    rw [← h]
    exact ⟨hA0, rfl⟩
  | succ f ihf =>
    have hC := checkDeps_preserves env A f ihf
    intro d s r hdA h hA0
    cases hm : aGet env d with
    | none =>
      rw [show activateGo env (f + 1) d s = .err ("Plugin not found: " ++ d) s by
        simp [activateGo, checkDepsGo_eq, hm]] at h
      rw [← h]
      exact ⟨hA0, rfl⟩
    | some pd =>
      have hpddeps : A ∉ pd.deps := hno (d, pd) (aGet_mem hm)
      cases ha : (aGet s.activePlugins d).isSome with
      | true =>
        rw [show activateGo env (f + 1) d s = .ok s by
          simp [activateGo, checkDepsGo_eq, hm, ha]] at h
        rw [← h]
        exact ⟨hA0, rfl⟩
      | false =>
        cases hcd : checkDepsGo env f pd.deps s with
        | err m s1 =>
          rw [show activateGo env (f + 1) d s =
            .err ("Failed to activate plugin " ++ d ++ ": " ++ m) s1 by
              simp [activateGo, checkDepsGo_eq, hm, ha, hcd]] at h
          obtain ⟨ha1, hc1⟩ := hC pd.deps s _ hpddeps hcd hA0
          simp only [stateOf] at ha1 hc1
          rw [← h]
          exact ⟨ha1, hc1⟩
        | ok s1 =>
          rw [show activateGo env (f + 1) d s = finishActivation d pd s1 by
            simp [activateGo, checkDepsGo_eq, hm, ha, hcd]] at h
          obtain ⟨ha1, hc1⟩ := hC pd.deps s _ hpddeps hcd hA0
          simp only [stateOf] at ha1 hc1
          cases hfin : finishActivation d pd s1 with
          | err m s' =>
            rw [hfin] at h
            obtain ⟨hact', _, hcount⟩ := finishActivation_err hfin
            rw [← h]
            simp only [stateOf]
            refine ⟨by rw [hact']; exact ha1, ?_⟩
            rcases hcount A with hc | ⟨_, _, hc⟩
            · rw [hc, hc1]
            · rw [hc, if_neg hdA, hc1]
              omega
          | ok s' =>
            rw [hfin] at h
            obtain ⟨_, _, _, ⟨c, hact'⟩, _, hcount⟩ := finishActivation_ok hfin
            rw [← h]
            simp only [stateOf]
            constructor
            · rw [hact', aGet_append_single_ne _ _ hdA]
              exact ha1
            · rw [hcount A, if_neg hdA, hc1]
              omega

/-- C10 counterexample: plugin "d"'s `initialize` registers a hook
handler through the context's `hooks.register` and then throws.  The
activation fails, yet the hook table retains the entry owned by "d"
added by the failed call (count went from 0 to 1) — contradicting the
claim that after a failed `activatePlugin(name)` the hook table contains
no entry owned by `name` that the failed call added. -/
theorem C10_counterexample :
    activateGo [("d", ⟨[], "1.0.0", true, "d/main.js", true,
        ⟨true, [("app:init", 3)], true, [("x", 1)]⟩⟩)] 5 "d" ⟨[], [], [], 0⟩ =
      .err "Failed to activate plugin d: initialize failed"
        ⟨[], [("app:init", [⟨"d", 3⟩])], [.initInvoked "d"], 0⟩ ∧
    countOwned "d" [("app:init", [⟨"d", 3⟩])] = 1 ∧
    countOwned "d" ([] : List (String × List RegEntry)) = 0 ∧
    aGet ([] : List (String × Nat)) "d" = none := by
  decide

/-- C10 (amended): for a plugin A not listed as a dependency of any
loaded plugin (the source does not defend against dependency cycles, per
§9 of the spec), with A's manifest loaded and A not active: if
`activatePlugin(A)` fails, A is not in the active-plugin map afterwards,
and the only hook entries owned by A the failed call can leave behind
are the ones A's own `initialize` registered through the context's
`register` before throwing (none otherwise — in particular none from the
`hooks`-accessor registration step); and the active record is created
only on a run in which module loading, instantiation and `initialize`
all succeeded. -/
theorem C10_activation_atomicity (env : Env) (A : String) (pdA : PluginDef)
    (s : RegState) (fuel : Nat)
    (hno : ∀ e ∈ env, A ∉ e.2.deps)
    (hA : aGet env A = some pdA)
    (hAin : aGet s.activePlugins A = none) :
    (∀ m s', activateGo env fuel A s = .err m s' →
      aGet s'.activePlugins A = none ∧
        (countOwned A s'.hooksTable = countOwned A s.hooksTable ∨
          (pdA.inst.hasInitialize = true ∧ pdA.inst.initThrows = true ∧
            countOwned A s'.hooksTable =
              countOwned A s.hooksTable + pdA.inst.initRegisters.length))) ∧
    (∀ s', activateGo env fuel A s = .ok s' →
      (aGet s'.activePlugins A).isSome = true ∧
        pdA.moduleLoads = true ∧ pdA.instanceOk = true ∧
        (pdA.inst.hasInitialize && pdA.inst.initThrows) = false) := by
  have hAin' : (aGet s.activePlugins A).isSome = false := by rw [hAin]; rfl
  have hAdeps : A ∉ pdA.deps := hno (A, pdA) (aGet_mem hA)
  cases fuel with
  | zero =>
    constructor
    · intro m s' h
      rw [show activateGo env 0 A s = .err "Maximum call stack size exceeded" s from rfl] at h
      cases h
      exact ⟨hAin, Or.inl rfl⟩
    · intro s' h
      exact absurd h (by simp [activateGo])
  | succ f =>
    have hC := checkDeps_preserves env A f (activate_preserves env A hno f)
    cases hcd : checkDepsGo env f pdA.deps s with
    | err m1 s1 =>
      have hred : activateGo env (f + 1) A s =
          .err ("Failed to activate plugin " ++ A ++ ": " ++ m1) s1 := by
        simp [activateGo, checkDepsGo_eq, hA, hAin', hcd]
      obtain ⟨ha1, hc1⟩ := hC pdA.deps s _ hAdeps hcd hAin
      simp only [stateOf] at ha1 hc1
      constructor
      · intro m s' h
        rw [hred] at h
        cases h
        exact ⟨ha1, Or.inl hc1⟩
      · intro s' h
        rw [hred] at h
        exact absurd h (by simp)
    | ok s1 =>
      have hred : activateGo env (f + 1) A s = finishActivation A pdA s1 := by
        simp [activateGo, checkDepsGo_eq, hA, hAin', hcd]
      obtain ⟨ha1, hc1⟩ := hC pdA.deps s _ hAdeps hcd hAin
      simp only [stateOf] at ha1 hc1
      constructor
      · intro m s' h
        rw [hred] at h
        obtain ⟨hact', _, hcount⟩ := finishActivation_err h
        refine ⟨by rw [hact']; exact ha1, ?_⟩
        rcases hcount A with hc | ⟨hi1, hi2, hc⟩
        · exact Or.inl (by rw [hc, hc1])
        · refine Or.inr ⟨hi1, hi2, ?_⟩
          rw [hc, if_pos rfl, hc1]
      · intro s' h
        rw [hred] at h
        obtain ⟨hml, hio, hit, ⟨c, hact'⟩, _, _⟩ := finishActivation_ok h
        refine ⟨?_, hml, hio, hit⟩
        rw [hact']
        exact aGet_append_self_isSome _ _ _

/-- C10 witness: a plugin whose module fails to load is absent from the
active map after the failed call, with no hook entries of its own added. -/
theorem C10_activation_atomicity_witness :
    aGet (⟨[], [], [], 0⟩ : RegState).activePlugins "p" = none ∧
      (countOwned "p" (⟨[], [], [], 0⟩ : RegState).hooksTable =
          countOwned "p" (⟨[], [], [], 0⟩ : RegState).hooksTable ∨
        ((⟨[], "1.0.0", false, "p/main.js", true, ⟨false, [], false, []⟩⟩ :
            PluginDef).inst.hasInitialize = true ∧
          (⟨[], "1.0.0", false, "p/main.js", true, ⟨false, [], false, []⟩⟩ :
            PluginDef).inst.initThrows = true ∧
          countOwned "p" (⟨[], [], [], 0⟩ : RegState).hooksTable =
            countOwned "p" (⟨[], [], [], 0⟩ : RegState).hooksTable +
              (⟨[], "1.0.0", false, "p/main.js", true, ⟨false, [], false, []⟩⟩ :
                PluginDef).inst.initRegisters.length)) :=
  (C10_activation_atomicity
    [("p", ⟨[], "1.0.0", false, "p/main.js", true, ⟨false, [], false, []⟩⟩)]
    "p" ⟨[], "1.0.0", false, "p/main.js", true, ⟨false, [], false, []⟩⟩
    ⟨[], [], [], 0⟩ 2 (by decide) rfl rfl).1
    ("Failed to activate plugin p: " ++
      "Failed to load plugin module p/main.js: module error")
    ⟨[], [], [], 0⟩ (by decide)

end Reconf
